import Mathlib

/-!
Verification of the Cards-Android-Backend card-game server.

This file shallowly embeds the data model (`app/models/room.py`), the pure
game logic (`app/domain/game_logic.py`), the websocket action dispatcher
(`app/websocket/game_event_handler.py` together with
`app/websocket/actions/player_actions.py`), and the room CRUD layer
(`app/crud/crud_room.py`), and proves or refutes the specification claims
about them.

Modelling conventions:
* Python in-place mutation becomes explicit state passing: each operation
  takes a `Room` and returns the updated `Room`.
* A Python `IndexError` (indexing `room.players[i]` out of range) is
  modelled by returning `none` from an `Option Room` valued operation.
* `random.shuffle` is modelled by an explicit `shuffle : List Card → List Card`
  parameter; theorems that depend on shuffling assume it is a permutation.
* Python `dict[str, list[Card]]` is modelled as an association list with
  first-match lookup, in-place replacement on update and filtering on pop.
* Timestamps (`datetime.now`) are modelled as abstract `Nat` values passed
  in as a `now` parameter.
-/

namespace Cards

/-- `Card` model from `app/models/room.py`. -/
structure Card where
  id : String
  suit : String
  rank : String
  deckId : Nat
deriving DecidableEq, Repr

/-- `PlayerInRoom` model from `app/models/room.py`. -/
structure PlayerInRoom where
  guest_id : String
  nickname : Option String
  sid : Option String
  is_ready : Bool
  hand : List Card
deriving DecidableEq, Repr

/-- `RoomSettings` model from `app/models/room.py`. -/
structure RoomSettings where
  number_of_decks : Nat
  include_jokers : Bool
  max_players : Nat
  initial_deal_count : Nat
deriving DecidableEq, Repr

/-- `CardGameSpecificState` model from `app/models/room.py`. -/
structure CardGameSpecificState where
  status : String
  current_turn_guest_id : Option String
  current_player_index : Option Nat
  turn_number : Nat
  turn_order : List String
  deck : List Card
  discard_pile : List Card
  table : List (List Card)
  last_action_description : Option String
  winner_guest_id : Option String
  last_player_id : Option String
  last_played_or_discarded_cards : List (String × List Card)
deriving DecidableEq, Repr

/-- `Room` model from `app/models/room.py` (timestamps abstracted to `Nat`). -/
structure Room where
  room_id : String
  name : Option String
  host_id : String
  players : List PlayerInRoom
  status : String
  game_type : Option String
  settings : RoomSettings
  game_state : Option CardGameSpecificState
  created_at : Nat
  updated_at : Nat
  last_activity : Nat
deriving DecidableEq, Repr

/-- First-match lookup in the association-list model of a Python dict. -/
def dictGet (d : List (String × List Card)) (k : String) : Option (List Card) :=
  (d.find? (fun p => p.1 = k)).map Prod.snd

/-- Python `d[k] = v`: replace the value of an existing key in place, else append. -/
def dictSet (d : List (String × List Card)) (k : String) (v : List Card) :
    List (String × List Card) :=
  if d.any (fun p => p.1 = k) then d.map (fun p => if p.1 = k then (k, v) else p)
  else d ++ [(k, v)]

/-- Python `d.pop(k, None)`: drop the key if present. -/
def dictPop (d : List (String × List Card)) (k : String) : List (String × List Card) :=
  d.filter (fun p => p.1 ≠ k)

/-- One step of the `discard_cards` loop: move the card from the hand to the
back of the discard pile when owned. -/
def discardStep (s : List Card × List Card) (c : Card) : List Card × List Card :=
  if c ∈ s.1 then (s.1.erase c, s.2 ++ [c]) else s

/-- The hand-removal loop shared by `play_cards`: Python
`for card in cards: if card in player.hand: player.hand.remove(card)`. -/
def removeOwned (hand : List Card) (cards : List Card) : List Card :=
  cards.foldl (fun h c => if c ∈ h then h.erase c else h) hand

/-- `game_logic.play_cards`: move the owned subset of `cards` out of the
player's hand, then append the whole `cards` list as one new table pile and
record the last-play. `none` models a Python `IndexError`. -/
def play_cards (room : Room) (player_index : Nat) (cards : List Card) : Option Room :=
  match room.game_state with
  | none => some room
  | some gs =>
    match room.players[player_index]? with
    | none => none
    | some player =>
      let player2 := { player with hand := removeOwned player.hand cards }
      let gs2 := { gs with
        table := gs.table ++ [cards]
        last_player_id := some player.guest_id
        last_played_or_discarded_cards :=
          dictSet gs.last_played_or_discarded_cards player.guest_id cards }
      some { room with players := room.players.set player_index player2,
                       game_state := some gs2 }

/-- `game_logic.discard_cards`: per card, if owned, move it from the hand to
the back of the discard pile; then record the last-play with the full
requested list. -/
def discard_cards (room : Room) (player_index : Nat) (cards : List Card) : Option Room :=
  match room.game_state with
  | none => some room
  | some gs =>
    match room.players[player_index]? with
    | none => none
    | some player =>
      let s := cards.foldl discardStep (player.hand, gs.discard_pile)
      let gs2 := { gs with
        discard_pile := s.2
        last_player_id := some player.guest_id
        last_played_or_discarded_cards :=
          dictSet gs.last_played_or_discarded_cards player.guest_id cards }
      some { room with players := room.players.set player_index ({ player with hand := s.1 }),
                       game_state := some gs2 }

/-- `game_logic.recall_cards`: only for the recorded last actor; tries to
remove the recorded card list from the table (`try: table.remove(...)
except ValueError: pass` is `List.erase`, a no-op when absent), extends the
hand with the recorded cards and clears the record. -/
def recall_cards (room : Room) (player_index : Nat) : Option Room :=
  match room.game_state with
  | none => some room
  | some gs =>
    match room.players[player_index]? with
    | none => none
    | some player =>
      if gs.last_player_id ≠ some player.guest_id then some room
      else
        match dictGet gs.last_played_or_discarded_cards player.guest_id with
        | none => some room
        | some cards =>
          if cards = [] then some room
          else
            let player2 := { player with hand := player.hand ++ cards }
            let gs2 := { gs with
              table := @List.erase (List Card) instBEqOfDecidableEq gs.table cards
              last_played_or_discarded_cards :=
                dictPop gs.last_played_or_discarded_cards player.guest_id
              last_player_id := none }
            some { room with players := room.players.set player_index player2,
                             game_state := some gs2 }

/-- One step of the `move_cards_to_player` loop: move the card from the
source hand (index `i`) to the back of the target hand (index `j`) when
owned; Python object aliasing when `i = j` is reproduced by looking the
target up again after the source update. -/
def moveStep (i j : Nat) (ps : List PlayerInRoom) (c : Card) : List PlayerInRoom :=
  match ps[i]? with
  | none => ps
  | some src =>
    if c ∈ src.hand then
      let ps1 := ps.set i ({ src with hand := src.hand.erase c })
      match ps1[j]? with
      | none => ps1
      | some tgt => ps1.set j ({ tgt with hand := tgt.hand ++ [c] })
    else ps

/-- `game_logic.move_cards_to_player`: per owned card, remove it from the
source hand and append it to the target hand (first player whose guest id
matches; aliasing when source = target is reproduced by updating the player
list between the two writes). -/
def move_cards_to_player (room : Room) (source_player_index : Nat) (cards : List Card)
    (target_player_id : String) : Option Room :=
  match room.players[source_player_index]? with
  | none => none
  | some _ =>
    match room.players.findIdx? (fun p => p.guest_id = target_player_id) with
    | none => some room
    | some j =>
      let players2 := cards.foldl (moveStep source_player_index j) room.players
      some { room with players := players2 }

/-- Suit tags from `game_logic.create_deck`. -/
def suits : List String := ["H", "D", "C", "S"]

/-- Rank tags from `game_logic.create_deck`. -/
def ranks : List String := ["2", "3", "4", "5", "6", "7", "8", "9", "10", "J", "Q", "K", "A"]

/-- `game_logic.create_deck`: per deck index, the 52 suit×rank cards followed
by the two jokers when enabled. -/
def create_deck (num_decks : Nat) (include_jokers : Bool) : List Card :=
  (List.range num_decks).flatMap (fun deck_id =>
    (suits.flatMap (fun suit => ranks.map (fun rank =>
      { id := suit ++ rank ++ "-" ++ toString deck_id, suit := suit, rank := rank,
        deckId := deck_id })))
    ++ (if include_jokers then
          [ { id := "Joker-Red-" ++ toString deck_id, suit := "Red", rank := "Joker",
              deckId := deck_id },
            { id := "Joker-Black-" ++ toString deck_id, suit := "Black", rank := "Joker",
              deckId := deck_id } ]
        else []))

/-- `game_logic.shuffle_deck`: flatten the table back into the deck, clear the
table, shuffle the deck (`shuffle` stands for `random.shuffle`). -/
def shuffle_deck (room : Room) (shuffle : List Card → List Card) : Room :=
  match room.game_state with
  | none => room
  | some gs =>
    let gs2 := { gs with deck := shuffle (gs.deck ++ gs.table.flatten), table := ([] : List (List Card)) }
    { room with game_state := some gs2 }

/-- One round of `game_logic.deal_cards`: each player in list order takes the
deck's last card if the deck is nonempty. -/
def dealStep (s : List PlayerInRoom × List Card) (idx : Nat) :
    List PlayerInRoom × List Card :=
  match s.2.getLast? with
  | none => s
  | some c =>
    match s.1[idx]? with
    | none => s
    | some p => (s.1.set idx ({ p with hand := p.hand ++ [c] }), s.2.dropLast)

def dealRound (ps : List PlayerInRoom) (deck : List Card) :
    List PlayerInRoom × List Card :=
  (List.range ps.length).foldl dealStep (ps, deck)

/-- The outer `for _ in range(count)` loop of `game_logic.deal_cards`. -/
def dealLoop : Nat → List PlayerInRoom × List Card → List PlayerInRoom × List Card
  | 0, s => s
  | n + 1, s => dealLoop n (dealRound s.1 s.2)

/-- `game_logic.deal_cards`: `count` round-robin passes over the players,
one tail card per player per pass, silently skipping once the deck is empty. -/
def deal_cards (room : Room) (count : Nat) : Room :=
  match room.game_state with
  | none => room
  | some gs =>
    let s := dealLoop count (room.players, gs.deck)
    { room with players := s.1, game_state := some { gs with deck := s.2 } }

/-- `game_logic.draw_card`: pop the deck's last card into the player's hand;
no-op when the game has not started or the deck is empty. -/
def draw_card (room : Room) (player_index : Nat) : Option Room :=
  match room.game_state with
  | none => some room
  | some gs =>
    match gs.deck.getLast? with
    | none => some room
    | some c =>
      match room.players[player_index]? with
      | none => none
      | some player =>
        some { room with
          players := room.players.set player_index ({ player with hand := player.hand ++ [c] }),
          game_state := some { gs with deck := gs.deck.dropLast } }

/-- `game_logic.draw_to_discard`: pop the deck's last card onto the discard pile. -/
def draw_to_discard (room : Room) : Room :=
  match room.game_state with
  | none => room
  | some gs =>
    match gs.deck.getLast? with
    | none => room
    | some c =>
      let gs2 := { gs with deck := gs.deck.dropLast, discard_pile := gs.discard_pile ++ [c] }
      { room with game_state := some gs2 }

/-- `game_logic.draw_from_discard`: pop the discard pile's last card into the
player's hand. -/
def draw_from_discard (room : Room) (player_index : Nat) : Option Room :=
  match room.game_state with
  | none => some room
  | some gs =>
    match gs.discard_pile.getLast? with
    | none => some room
    | some c =>
      match room.players[player_index]? with
      | none => none
      | some player =>
        some { room with
          players := room.players.set player_index ({ player with hand := player.hand ++ [c] }),
          game_state := some { gs with discard_pile := gs.discard_pile.dropLast } }

/-- The multiset of all cards in the players' hands. -/
def handCards (ps : List PlayerInRoom) : Multiset Card :=
  ((ps.map PlayerInRoom.hand).flatten : List Card)

/-- The multiset union of deck, discard pile, table piles and all hands:
the quantity the card-conservation invariant is about. -/
def roomCards (room : Room) : Multiset Card :=
  (match room.game_state with
   | none => (0 : Multiset Card)
   | some gs => ((gs.deck : Multiset Card) + (gs.discard_pile : Multiset Card) +
       (gs.table.flatten : Multiset Card)))
  + handCards room.players

/-- The closed set of player actions dispatched by
`GameEventHandler.handle_player_action` (`action_classes` map). The shuffle
action carries the `random.shuffle` outcome as a function parameter. -/
inductive PAction where
  | playCards (cards : List Card)
  | discardCards (cards : List Card)
  | recallCards
  | moveCardToPlayer (cards : List Card) (target_player_id : String)
  | shuffleDeck (shuffle : List Card → List Card)
  | dealCards (count : Nat)

/-- The per-variant `validate_action` methods from
`app/websocket/actions/player_actions.py` (and `HostAction.validate_action`
from `actions/base.py`). Returns the raised error message, or `none` when
validation passes. `validate_game_started` can never fail here because the
dispatcher only calls validation with a present game state. -/
def validate_action (room : Room) (gs : CardGameSpecificState) (player_index : Nat)
    (a : PAction) : Option String :=
  match a with
  | .playCards cards =>
    match room.players[player_index]? with
    | none => some "Player not found in room"
    | some player =>
      if cards.all (fun c => c ∈ player.hand) then none
      else some "Player does not have all of these cards"
  | .discardCards cards =>
    match room.players[player_index]? with
    | none => some "Player not found in room"
    | some player =>
      if cards.all (fun c => c ∈ player.hand) then none
      else some "Player does not have all of these cards"
  | .recallCards =>
    if gs.table = [] then some "No cards on the table to recall" else none
  | .moveCardToPlayer cards target_player_id =>
    match room.players[player_index]? with
    | none => some "Player not found in room"
    | some player =>
      if ¬ (cards.all (fun c => c ∈ player.hand)) then
        some "Player does not have all of these cards"
      else if ¬ (room.players.any (fun p => p.guest_id = target_player_id)) then
        some "Target player not found in the room"
      else none
  | .shuffleDeck _ =>
    match room.players[player_index]? with
    | none => some "IndexError"
    | some player =>
      if player.guest_id ≠ room.host_id then some "Only the host can perform this action."
      else none
  | .dealCards _ =>
    match room.players[player_index]? with
    | none => some "IndexError"
    | some player =>
      if player.guest_id ≠ room.host_id then some "Only the host can perform this action."
      else none

/-- The `apply` step of each action variant: delegation to `game_logic`. -/
def apply_action (room : Room) (player_index : Nat) (a : PAction) : Option Room :=
  match a with
  | .playCards cards => play_cards room player_index cards
  | .discardCards cards => discard_cards room player_index cards
  | .recallCards => recall_cards room player_index
  | .moveCardToPlayer cards target_player_id =>
    move_cards_to_player room player_index cards target_player_id
  | .shuffleDeck shuffle => some (shuffle_deck room shuffle)
  | .dealCards count => some (deal_cards room count)

/-- `GameEventHandler.handle_player_action` (game_event_handler.py:271-339):
membership check, game-in-progress check, per-action validation, apply,
turn advance guarded on a nonempty turn order, `last_activity` refresh.
`Except.ok` models the success path (persist via `update_room` and broadcast);
`Except.error` models the `player_action_failed` reply, which persists and
broadcasts nothing. -/
def handle_player_action (room : Room) (guest_id : String) (a : PAction) (now : Nat) :
    Except String Room :=
  if ¬ (room.players.any (fun p => p.guest_id = guest_id)) then
    Except.error "Player not in room"
  else if room.status ≠ "active" then Except.error "Game not in progress"
  else
    match room.game_state with
    | none => Except.error "Game not in progress"
    | some gs =>
      let player_index := room.players.findIdx (fun p => p.guest_id = guest_id)
      match validate_action room gs player_index a with
      | some e => Except.error e
      | none =>
        match apply_action room player_index a with
        | none => Except.error "IndexError"
        | some room2 =>
          match room2.game_state with
          | none => Except.error "unreachable"
          | some gs2 =>
            if gs2.turn_order = [] then
              Except.ok { room2 with last_activity := now }
            else
              let ci := gs2.current_player_index.getD 0
              let ni := (ci + 1) % gs2.turn_order.length
              let gs3 := { gs2 with
                current_player_index := some ni
                current_turn_guest_id := gs2.turn_order[ni]?
                turn_number := gs2.turn_number + 1 }
              Except.ok { room2 with game_state := some gs3, last_activity := now }

/-- `crud_room._create_deck` before its `random.shuffle`: all suit×rank cards
for every deck index first, then the two jokers per deck index. -/
def crud_create_deck_base (settings : RoomSettings) : List Card :=
  ((List.range settings.number_of_decks).flatMap (fun i =>
    suits.flatMap (fun suit => ranks.map (fun rank =>
      { id := suit ++ rank ++ "-" ++ toString i, suit := suit, rank := rank, deckId := i }))))
  ++ (if settings.include_jokers then
        (List.range settings.number_of_decks).flatMap (fun i =>
          [ { id := "Joker-Red-" ++ toString i, suit := "Red", rank := "Joker", deckId := i },
            { id := "Joker-Black-" ++ toString i, suit := "Black", rank := "Joker",
              deckId := i } ])
      else [])

/-- Python `[deck.pop() for _ in range(n)]`: take `n` cards off the deck's
tail, most recent pop first; `none` models the `IndexError` on an empty deck. -/
def popCards : Nat → List Card → Option (List Card × List Card)
  | 0, deck => some ([], deck)
  | n + 1, deck =>
    match deck.getLast? with
    | none => none
    | some c =>
      match popCards n deck.dropLast with
      | none => none
      | some s => some (c :: s.1, s.2)

/-- The `player_hands` dict comprehension of `crud_room.start_game`: pop
`n` cards for each player in list order into a guest-id-keyed dict. -/
def buildHands (n : Nat) :
    List PlayerInRoom → List Card → List (String × List Card) →
    Option (List (String × List Card) × List Card)
  | [], deck, acc => some (acc, deck)
  | p :: ps, deck, acc =>
    match popCards n deck with
    | none => none
    | some s => buildHands n ps s.2 (dictSet acc p.guest_id s.1)

/-- `crud_room.start_game` after the room fetch: create and shuffle a deck,
deal whole hands player by player, then install the active game state.
`none` models any raised exception (deck exhausted mid-deal, or
`room.players[0]` on an empty room), which the function turns into a `None`
result. -/
def crud_start_game (room : Room) (shuffle : List Card → List Card) : Option Room :=
  let deck0 := shuffle (crud_create_deck_base room.settings)
  match buildHands room.settings.initial_deal_count room.players deck0 [] with
  | none => none
  | some s =>
    let players2 := room.players.map (fun p => { p with hand := (dictGet s.1 p.guest_id).getD [] })
    match room.players.head? with
    | none => none
    | some p0 =>
      let gs : CardGameSpecificState :=
        { status := "active", current_turn_guest_id := some p0.guest_id,
          current_player_index := some 0, turn_number := 0,
          turn_order := room.players.map (fun p => p.guest_id),
          deck := s.2, discard_pile := [], table := [],
          last_action_description := none, winner_guest_id := none,
          last_player_id := none, last_played_or_discarded_cards := [] }
      some { room with players := players2, status := "active", game_state := some gs }

/-- The REST `POST /rooms/{room_id}/start` endpoint (rooms.py:229-292),
after authentication and the room fetch: host gate, all-players-ready gate,
then `crud_room.start_game`. `none` models every rejection (403/400). -/
def rest_start_game (room : Room) (caller : String) (shuffle : List Card → List Card) :
    Option Room :=
  if room.host_id ≠ caller then none
  else if ¬ (room.players.all (fun p => p.is_ready)) then none
  else crud_start_game room shuffle

/-- `game_logic.initialize_game_state` as consumed by the websocket start
handler: pydantic ignores the extra `room_id`/`players`/`current_turn` keys,
so the resulting state has a full shuffled deck, empty piles and the
defaulted (empty) turn order. -/
def init_game_state (settings : RoomSettings) (shuffle : List Card → List Card) :
    CardGameSpecificState :=
  { status := "active", current_turn_guest_id := none, current_player_index := none,
    turn_number := 0, turn_order := [],
    deck := shuffle (create_deck settings.number_of_decks settings.include_jokers),
    discard_pile := [], table := [], last_action_description := none,
    winner_guest_id := none, last_player_id := none, last_played_or_discarded_cards := [] }

/-- `GameEventHandler.handle_start_game` (game_event_handler.py:220-269):
host gate, already-active gate, at-least-two-players gate, install the
initialized game state; the initial-turn assignment is guarded on a nonempty
turn order. No hands are dealt on this path. -/
def ws_handle_start_game (room : Room) (caller : String) (shuffle : List Card → List Card)
    (now : Nat) : Except String Room :=
  if room.host_id ≠ caller then Except.error "Only the host can perform this action"
  else if room.status = "active" then Except.error "Game already started"
  else if room.players.length < 2 then
    Except.error "At least 2 players are required to start"
  else
    let gs := init_game_state room.settings shuffle
    let gs2 :=
      if gs.turn_order = [] then gs
      else { gs with current_turn_guest_id := gs.turn_order.head?,
                     current_player_index := some 0 }
    Except.ok { room with last_activity := now, status := "active", game_state := some gs2 }

/-- `crud_room.remove_player_from_room`: filter the player out, promote the
first remaining player to host when the host left and players remain. -/
def remove_player_from_room (room : Room) (guest_id : String) (now : Nat) : Room :=
  let players2 := room.players.filter (fun p => p.guest_id ≠ guest_id)
  let host2 :=
    if room.host_id = guest_id then
      match players2.head? with
      | some p => p.guest_id
      | none => room.host_id
    else room.host_id
  { room with players := players2, host_id := host2, updated_at := now }

/-- The `players.$.sid` positional Mongo update of `crud_room.add_player_to_room`:
overwrite the connection binding of the first player whose guest id matches. -/
def refresh_sid : List PlayerInRoom → String → Option String → List PlayerInRoom
  | [], _, _ => []
  | p :: ps, g, s =>
    if p.guest_id = g then ({ p with sid := s }) :: ps
    else p :: refresh_sid ps g s

/-- `crud_room.add_player_to_room`: refresh the connection binding when the
guest already has a player record, otherwise append the new player unless
the room is full (`none`). -/
def add_player_to_room (room : Room) (player : PlayerInRoom) (now : Nat) : Option Room :=
  if room.players.any (fun p => p.guest_id = player.guest_id) then
    some { room with players := refresh_sid room.players player.guest_id player.sid,
                     updated_at := now }
  else if room.settings.max_players ≤ room.players.length then none
  else
    some { room with players := room.players ++ [player], updated_at := now }

/-- The empty-room criterion of the cleanup sweep
(`crud_room.get_rooms_with_no_players`, used by `clean_inactive_rooms`). -/
def sweep_eligible_empty (room : Room) : Bool :=
  room.players.length = 0

/-- Sequential dispatch of a list of `(guest, action, timestamp)` player
actions through `handle_player_action`, stopping at the first failure. -/
def runActions : Room → List (String × PAction × Nat) → Except String Room
  | room, [] => Except.ok room
  | room, (g, a, now) :: rest =>
    match handle_player_action room g a now with
    | Except.error e => Except.error e
    | Except.ok r2 => runActions r2 rest

/-- Observation helper: the turn counter of a successful dispatch result. -/
def okTurnNumber (x : Except String Room) : Option Nat :=
  match x with
  | Except.ok r =>
    match r.game_state with
    | some gs => some gs.turn_number
    | none => none
  | Except.error _ => none

/-! ### Concrete cards, players and rooms used to evaluate the claims -/

def cardH2 : Card := { id := "H2-0", suit := "H", rank := "2", deckId := 0 }

def cardH3 : Card := { id := "H3-0", suit := "H", rank := "3", deckId := 0 }

def playerA : PlayerInRoom :=
  { guest_id := "a", nickname := none, sid := none, is_ready := true, hand := [] }

def playerB : PlayerInRoom :=
  { guest_id := "b", nickname := none, sid := none, is_ready := true, hand := [] }

/-- `playerA` holding one card. -/
def playerA1 : PlayerInRoom := { playerA with hand := [cardH2] }

def baseSettings : RoomSettings :=
  { number_of_decks := 1, include_jokers := false, max_players := 4, initial_deal_count := 3 }

/-- State reached after player a discarded `cardH2` (recorded as the last
play) while a pile played by someone else is still on the table. -/
def recallGs : CardGameSpecificState :=
  { status := "active", current_turn_guest_id := some "a", current_player_index := some 0,
    turn_number := 0, turn_order := ["a", "b"], deck := [], discard_pile := [cardH2],
    table := [[cardH3]], last_action_description := none, winner_guest_id := none,
    last_player_id := some "a", last_played_or_discarded_cards := [("a", [cardH2])] }

def recallRoom : Room :=
  { room_id := "r1", name := none, host_id := "a", players := [playerA, playerB],
    status := "active", game_type := none, settings := baseSettings,
    game_state := some recallGs, created_at := 0, updated_at := 0, last_activity := 0 }

/-- Like `recallGs` but with an empty turn order, as produced by the
websocket start handler. -/
def emptyOrderGs : CardGameSpecificState :=
  { recallGs with
    turn_order := []
    current_player_index := none
    current_turn_guest_id := none }

def emptyOrderRoom : Room :=
  { recallRoom with room_id := "r2", game_state := some emptyOrderGs }

/-- A clean active state where player a holds `cardH2` and nothing has been
played yet. -/
def playGs : CardGameSpecificState :=
  { recallGs with
    discard_pile := []
    table := []
    last_player_id := none
    last_played_or_discarded_cards := [] }

def playRoom : Room :=
  { recallRoom with
    room_id := "r3"
    players := [playerA1, playerB]
    game_state := some playGs }

def playRoomAfter : Room := (play_cards playRoom 0 [cardH2]).getD playRoom

/-- State where the recorded last play of a is the pile `[cardH2]` actually
present on the table (a play, not a discard). -/
def recallGoodGs : CardGameSpecificState :=
  { recallGs with
    discard_pile := []
    table := [[cardH2]] }

def recallGoodRoom : Room :=
  { recallRoom with room_id := "r4", game_state := some recallGoodGs }

def recallGoodAfter : Room := (recall_cards recallGoodRoom 0).getD recallGoodRoom

/-- Three successfully validated empty discards: a, b, a again. -/
def rotActs : List (String × PAction × Nat) :=
  [("a", PAction.discardCards [], 1), ("b", PAction.discardCards [], 2),
   ("a", PAction.discardCards [], 3)]

def rotAfter : Room :=
  match runActions playRoom rotActs with
  | Except.ok r => r
  | Except.error _ => playRoom

/-- A one-player room whose single player is ready, with no game yet. -/
def soloRoom : Room :=
  { recallRoom with
    room_id := "r5"
    players := [playerA]
    status := "waiting"
    game_state := none }

/-- A waiting two-player room in which player a is not ready. -/
def notReadyRoom : Room :=
  { recallRoom with
    room_id := "r6"
    players := [{ playerA with is_ready := false }, playerB]
    status := "waiting"
    game_state := none }

/-- A waiting two-player room with everyone ready. -/
def waitingRoom : Room :=
  { recallRoom with room_id := "r7", status := "waiting", game_state := none }

/-- Four ready players with settings demanding 4 × 17 = 68 cards from a
single 52-card deck. -/
def dealExhaustRoom : Room :=
  { recallRoom with
    room_id := "r8"
    players := [playerA, playerB, { playerA with guest_id := "c" }, { playerA with guest_id := "d" }]
    status := "waiting"
    game_state := none
    settings := { number_of_decks := 1, include_jokers := false, max_players := 8, initial_deal_count := 17 } }

/-- A reconnection of guest a with a fresh connection binding. -/
def rejoinPlayer : PlayerInRoom :=
  { guest_id := "a", nickname := some "nick", sid := some "s9", is_ready := false,
    hand := [] }

/-- Result room of a mismatched recall dispatched for player b. -/
def mismatchAfter : Room :=
  match handle_player_action recallRoom "b" PAction.recallCards 7 with
  | Except.ok r => r
  | Except.error _ => recallRoom

/-- The game-state fields that the turn-advance block reads and writes. -/
def turnFieldsEq (gs gs2 : CardGameSpecificState) : Prop :=
  gs2.turn_order = gs.turn_order ∧ gs2.current_player_index = gs.current_player_index ∧
    gs2.turn_number = gs.turn_number

/-! ### Multiset accounting lemmas -/

theorem handCards_nil : handCards [] = 0 := rfl

theorem handCards_cons (p : PlayerInRoom) (ps : List PlayerInRoom) :
    handCards (p :: ps) = (p.hand : Multiset Card) + handCards ps := by
  show ((p.hand ++ (ps.map PlayerInRoom.hand).flatten : List Card) : Multiset Card) = _
  rw [← Multiset.coe_add]
  rfl

theorem erase_add_singleton {l : List Card} {a : Card} (h : a ∈ l) :
    ((l.erase a : List Card) : Multiset Card) + {a} = (l : Multiset Card) := by
  have hp : (l : Multiset Card) = ((a :: l.erase a : List Card) : Multiset Card) :=
    Multiset.coe_eq_coe.mpr (List.perm_cons_erase h)
  rw [hp, ← Multiset.cons_coe, ← Multiset.singleton_add, add_comm]

theorem eq_dropLast_append {α : Type} {l : List α} {a : α} (h : l.getLast? = some a) :
    l = l.dropLast ++ [a] :=
  (List.dropLast_append_getLast? a (Option.mem_def.mpr h)).symm

theorem dropLast_add_getLast {l : List Card} {a : Card} (h : l.getLast? = some a) :
    ((l.dropLast : List Card) : Multiset Card) + {a} = (l : Multiset Card) := by
  conv_rhs => rw [eq_dropLast_append h]
  rw [← Multiset.coe_add, Multiset.coe_singleton]

theorem handCards_set {ps : List PlayerInRoom} {i : Nat} {p : PlayerInRoom}
    (h : ps[i]? = some p) (p' : PlayerInRoom) :
    handCards (ps.set i p') + (p.hand : Multiset Card) =
      handCards ps + (p'.hand : Multiset Card) := by
  induction ps generalizing i with
  | nil => simp at h
  | cons q qs ih =>
    cases i with
    | zero =>
      simp only [List.getElem?_cons_zero, Option.some.injEq] at h
      subst h
      simp only [List.set_cons_zero, handCards_cons]
      abel
    | succ n =>
      simp only [List.getElem?_cons_succ] at h
      simp only [List.set_cons_succ, handCards_cons, add_assoc]
      rw [ih h]

theorem roomCards_eq {room : Room} {gs : CardGameSpecificState} (h : room.game_state = some gs) :
    roomCards room = ((gs.deck : Multiset Card) + (gs.discard_pile : Multiset Card) +
      ((gs.table.flatten : List Card) : Multiset Card)) + handCards room.players := by
  simp [roomCards, h]

theorem set_hand_add {ps : List PlayerInRoom} {i : Nat} {p : PlayerInRoom}
    (hp : ps[i]? = some p) (p' : PlayerInRoom) (d : Multiset Card)
    (hd : (p'.hand : Multiset Card) = (p.hand : Multiset Card) + d) :
    handCards (ps.set i p') = handCards ps + d := by
  have h1 := handCards_set hp p'
  rw [hd] at h1
  refine add_right_cancel (b := (p.hand : Multiset Card)) ?_
  rw [h1]
  abel

theorem set_hand_sub {ps : List PlayerInRoom} {i : Nat} {p : PlayerInRoom}
    (hp : ps[i]? = some p) (p' : PlayerInRoom) (d : Multiset Card)
    (hd : (p.hand : Multiset Card) = (p'.hand : Multiset Card) + d) :
    handCards (ps.set i p') + d = handCards ps := by
  have h1 := handCards_set hp p'
  rw [hd] at h1
  refine add_right_cancel (b := (p'.hand : Multiset Card)) ?_
  rw [← h1]
  abel

/-! ### Conservation of the draw and shuffle primitives -/

theorem coe_append_singleton (l : List Card) (c : Card) :
    ((l ++ [c] : List Card) : Multiset Card) = (l : Multiset Card) + {c} := by
  rw [← Multiset.coe_singleton, Multiset.coe_add]

theorem draw_card_conserves {room : Room} {i : Nat} {r' : Room}
    (h : draw_card room i = some r') : roomCards r' = roomCards room := by
  cases hgs : room.game_state with
  | none => simp only [draw_card, hgs] at h; injection h with h; subst h; rfl
  | some gs =>
    cases hlast : gs.deck.getLast? with
    | none =>
      simp only [draw_card, hgs, hlast] at h
      injection h with h
      subst h
      rfl
    | some c =>
      cases hp : room.players[i]? with
      | none => simp only [draw_card, hgs, hlast, hp] at h; cases h
      | some player =>
        simp only [draw_card, hgs, hlast, hp] at h
        injection h with h
        subst h
        rw [roomCards_eq hgs]
        rw [roomCards_eq rfl]
        rw [set_hand_add hp ({ player with hand := player.hand ++ [c] }) {c}
          (coe_append_singleton player.hand c)]
        rw [← dropLast_add_getLast hlast]
        abel

theorem draw_to_discard_conserves (room : Room) :
    roomCards (draw_to_discard room) = roomCards room := by
  cases hgs : room.game_state with
  | none => simp only [draw_to_discard, hgs]
  | some gs =>
    cases hlast : gs.deck.getLast? with
    | none => simp only [draw_to_discard, hgs, hlast]
    | some c =>
      simp only [draw_to_discard, hgs, hlast]
      rw [roomCards_eq hgs]
      rw [roomCards_eq rfl]
      rw [coe_append_singleton gs.discard_pile c]
      rw [← dropLast_add_getLast hlast]
      abel

theorem draw_from_discard_conserves {room : Room} {i : Nat} {r' : Room}
    (h : draw_from_discard room i = some r') : roomCards r' = roomCards room := by
  cases hgs : room.game_state with
  | none => simp only [draw_from_discard, hgs] at h; injection h with h; subst h; rfl
  | some gs =>
    cases hlast : gs.discard_pile.getLast? with
    | none =>
      simp only [draw_from_discard, hgs, hlast] at h
      injection h with h
      subst h
      rfl
    | some c =>
      cases hp : room.players[i]? with
      | none => simp only [draw_from_discard, hgs, hlast, hp] at h; cases h
      | some player =>
        simp only [draw_from_discard, hgs, hlast, hp] at h
        injection h with h
        subst h
        rw [roomCards_eq hgs]
        rw [roomCards_eq rfl]
        rw [set_hand_add hp ({ player with hand := player.hand ++ [c] }) {c}
          (coe_append_singleton player.hand c)]
        rw [← dropLast_add_getLast hlast]
        abel

theorem shuffle_deck_conserves (room : Room) (f : List Card → List Card)
    (hf : ∀ l, List.Perm (f l) l) :
    roomCards (shuffle_deck room f) = roomCards room := by
  cases hgs : room.game_state with
  | none => simp only [shuffle_deck, hgs]
  | some gs =>
    simp only [shuffle_deck, hgs]
    rw [roomCards_eq hgs]
    rw [roomCards_eq rfl]
    rw [Multiset.coe_eq_coe.mpr (hf (gs.deck ++ gs.table.flatten)), ← Multiset.coe_add]
    simp only [List.flatten_nil, Multiset.coe_nil]
    abel

/-! ### Conservation of discard, play, recall, transfer, deal -/

theorem coe_cons (c : Card) (l : List Card) :
    ((c :: l : List Card) : Multiset Card) = {c} + (l : Multiset Card) := by
  rw [← Multiset.cons_coe, ← Multiset.singleton_add]


theorem conserve_core {D T HP HS hand h2 d2 d : Multiset Card}
    (hset : HS + hand = HP + h2) (hfold : h2 + d2 = hand + d) :
    D + d2 + T + HS = D + d + T + HP := by
  refine add_right_cancel (b := hand + h2) ?_
  have e1 : D + d2 + T + HS + (hand + h2) = D + T + (HS + hand) + (h2 + d2) := by abel
  have e2 : D + T + (HP + h2) + (hand + d) = D + d + T + HP + (hand + h2) := by abel
  rw [e1, hset, hfold, ← e2]

theorem conserve_core2 {D T HP HS hand rem C : Multiset Card}
    (hset : HS + hand = HP + rem) (hrem : rem + C = hand) :
    D + (T + C) + HS = D + T + HP := by
  refine add_right_cancel (b := hand) ?_
  have e1 : D + (T + C) + HS + hand = D + T + (HS + hand) + C := by abel
  have e2 : D + T + (HP + rem) + C = D + T + HP + (rem + C) := by abel
  rw [e1, hset, e2, hrem]

theorem conserve_core3 {D T2 T HP HS hand C : Multiset Card}
    (hset : HS + hand = HP + (hand + C)) (ht : T2 + C = T) :
    D + T2 + HS = D + T + HP := by
  refine add_right_cancel (b := hand) ?_
  have e1 : D + T2 + HS + hand = D + T2 + (HS + hand) := by abel
  have e2 : D + T2 + (HP + (hand + C)) = D + (T2 + C) + HP + hand := by abel
  rw [e1, hset, e2, ht]

theorem discard_fold_conserves (cards : List Card) (h d : List Card) :
    (((cards.foldl discardStep (h, d)).1 : List Card) : Multiset Card)
      + (((cards.foldl discardStep (h, d)).2 : List Card) : Multiset Card)
      = (h : Multiset Card) + (d : Multiset Card) := by
  induction cards generalizing h d with
  | nil => rfl
  | cons c cs ih =>
    simp only [List.foldl_cons]
    by_cases hc : c ∈ h
    · rw [show discardStep (h, d) c = (h.erase c, d ++ [c]) from by
        simp only [discardStep, hc, if_pos]]
      rw [ih (h.erase c) (d ++ [c])]
      rw [coe_append_singleton d c, ← erase_add_singleton hc]
      abel
    · rw [show discardStep (h, d) c = (h, d) from by simp only [discardStep, hc, if_neg,
        not_false_iff]]
      exact ih h d

theorem removeOwned_conserves {cards h : List Card}
    (hle : (cards : Multiset Card) ≤ (h : Multiset Card)) :
    ((removeOwned h cards : List Card) : Multiset Card) + (cards : Multiset Card)
      = (h : Multiset Card) := by
  induction cards generalizing h with
  | nil => simp [removeOwned]
  | cons c cs ih =>
    have hc : c ∈ h := by
      have hm : c ∈ (h : Multiset Card) := Multiset.mem_of_le hle (by simp)
      simpa using hm
    have hle2 : (cs : Multiset Card) ≤ ((h.erase c : List Card) : Multiset Card) := by
      have he := Multiset.erase_le_erase c hle
      rw [← Multiset.cons_coe] at he
      rw [Multiset.erase_cons_head] at he
      rw [Multiset.coe_erase] at he
      exact he
    have hstep : removeOwned h (c :: cs) = removeOwned (h.erase c) cs := by
      simp only [removeOwned, List.foldl_cons, if_pos hc]
    rw [hstep, coe_cons]
    rw [← erase_add_singleton hc, ← ih hle2]
    abel

theorem discard_cards_conserves {room : Room} {i : Nat} {cards : List Card} {r' : Room}
    (h : discard_cards room i cards = some r') : roomCards r' = roomCards room := by
  cases hgs : room.game_state with
  | none => simp only [discard_cards, hgs] at h; injection h with h; subst h; rfl
  | some gs =>
    cases hp : room.players[i]? with
    | none => simp only [discard_cards, hgs, hp] at h; cases h
    | some player =>
      simp only [discard_cards, hgs, hp] at h
      injection h with h
      subst h
      simp only [roomCards, hgs]
      exact conserve_core
        (handCards_set hp ({ player with
          hand := (cards.foldl discardStep (player.hand, gs.discard_pile)).1 }))
        (discard_fold_conserves cards player.hand gs.discard_pile)

theorem play_cards_conserves {room : Room} {i : Nat} {cards : List Card} {r' : Room}
    {player : PlayerInRoom} (hp : room.players[i]? = some player)
    (hle : (cards : Multiset Card) ≤ (player.hand : Multiset Card))
    (h : play_cards room i cards = some r') : roomCards r' = roomCards room := by
  cases hgs : room.game_state with
  | none => simp only [play_cards, hgs] at h; injection h with h; subst h; rfl
  | some gs =>
    simp only [play_cards, hgs, hp] at h
    injection h with h
    subst h
    simp only [roomCards, hgs, List.flatten_append, List.flatten_cons, List.flatten_nil,
      List.append_nil]
    rw [← Multiset.coe_add]
    exact conserve_core2
      (handCards_set hp ({ player with hand := removeOwned player.hand cards }))
      (removeOwned_conserves hle)

theorem conserve_core4 {A B d T HS HP : Multiset Card} (h : HS + A = HP + B) :
    A + d + T + HS = B + d + T + HP := by
  have e1 : A + d + T + HS = HS + A + (d + T) := by abel
  have e2 : HP + B + (d + T) = B + d + T + HP := by abel
  rw [e1, h, e2]

theorem recall_cards_conserves {room : Room} {i : Nat} {r' : Room}
    (hrec : ∀ gs player cards, room.game_state = some gs →
      room.players[i]? = some player →
      gs.last_player_id = some player.guest_id →
      dictGet gs.last_played_or_discarded_cards player.guest_id = some cards →
      cards = [] ∨ cards ∈ gs.table)
    (h : recall_cards room i = some r') : roomCards r' = roomCards room := by
  cases hgs : room.game_state with
  | none => simp only [recall_cards, hgs] at h; injection h with h; subst h; rfl
  | some gs =>
    cases hp : room.players[i]? with
    | none => simp only [recall_cards, hgs, hp] at h; cases h
    | some player =>
      simp only [recall_cards, hgs, hp] at h
      by_cases hlp : gs.last_player_id = some player.guest_id
      · rw [if_neg (by simp [hlp])] at h
        cases hget : dictGet gs.last_played_or_discarded_cards player.guest_id with
        | none => simp only [hget] at h; injection h with h; subst h; rfl
        | some cards =>
          simp only [hget] at h
          by_cases hnil : cards = []
          · rw [if_pos hnil] at h; injection h with h; subst h; rfl
          · rw [if_neg hnil] at h
            injection h with h
            subst h
            have htab : cards ∈ gs.table := by
              rcases hrec gs player cards hgs hp hlp hget with he | hm
              · exact absurd he hnil
              · exact hm
            simp only [roomCards, hgs]
            have hset : handCards (room.players.set i
                  ({ player with hand := player.hand ++ cards }))
                + (player.hand : Multiset Card)
                = handCards room.players
                  + ((player.hand : Multiset Card) + (cards : Multiset Card)) := by
              have h1 := handCards_set hp ({ player with hand := player.hand ++ cards })
              rw [← Multiset.coe_add] at h1
              exact h1
            have ht : (((@List.erase (List Card) instBEqOfDecidableEq gs.table
                  cards).flatten : List Card) : Multiset Card)
                + (cards : Multiset Card)
                = ((gs.table.flatten : List Card) : Multiset Card) := by
              have hperm := (List.perm_cons_erase htab).flatten
              rw [show ((gs.table.flatten : List Card) : Multiset Card)
                  = (cards : Multiset Card) + (((@List.erase (List Card) instBEqOfDecidableEq
                    gs.table cards).flatten : List Card) : Multiset Card) from by
                rw [Multiset.coe_eq_coe.mpr hperm, List.flatten_cons, ← Multiset.coe_add]]
              abel
            exact conserve_core3 hset ht
      · rw [if_pos (by simp [hlp])] at h
        injection h with h
        subst h
        rfl

theorem moveStep_hands (i : Nat) {ps : List PlayerInRoom} {j : Nat}
    (hj : j < ps.length) (c : Card) :
    handCards (moveStep i j ps c) = handCards ps ∧ (moveStep i j ps c).length = ps.length := by
  cases hsrc : ps[i]? with
  | none => exact ⟨by simp only [moveStep, hsrc], by simp only [moveStep, hsrc]⟩
  | some src =>
    by_cases hc : c ∈ src.hand
    · simp only [moveStep, hsrc, hc, if_true]
      cases htgt : (ps.set i ({ src with hand := src.hand.erase c }))[j]? with
      | none =>
        exfalso
        rw [List.getElem?_eq_none_iff, List.length_set] at htgt
        omega
      | some tgt =>
        simp only [htgt]
        refine ⟨?_, ?_⟩
        · have h1 : handCards (ps.set i ({ src with hand := src.hand.erase c })) + {c}
              = handCards ps :=
            set_hand_sub hsrc _ {c} (erase_add_singleton hc).symm
          have h2 := set_hand_add htgt ({ tgt with hand := tgt.hand ++ [c] }) {c}
            (coe_append_singleton tgt.hand c)
          rw [h2, h1]
        · rw [List.length_set, List.length_set]
    · exact ⟨by simp only [moveStep, hsrc, hc, if_false],
        by simp only [moveStep, hsrc, hc, if_false]⟩

theorem move_fold_hands (cards : List Card) (ps : List PlayerInRoom) (i j : Nat)
    (hj : j < ps.length) :
    handCards (cards.foldl (moveStep i j) ps) = handCards ps ∧
      (cards.foldl (moveStep i j) ps).length = ps.length := by
  induction cards generalizing ps with
  | nil => exact ⟨rfl, rfl⟩
  | cons c cs ih =>
    simp only [List.foldl_cons]
    have hstep := moveStep_hands i hj c
    have hrest := ih (moveStep i j ps c) (by rw [hstep.2]; exact hj)
    exact ⟨by rw [hrest.1, hstep.1], by rw [hrest.2, hstep.2]⟩

theorem move_cards_to_player_conserves {room : Room} {i : Nat} {cards : List Card}
    {tid : String} {r' : Room}
    (h : move_cards_to_player room i cards tid = some r') : roomCards r' = roomCards room := by
  cases hsrc : room.players[i]? with
  | none => simp only [move_cards_to_player, hsrc] at h; cases h
  | some src =>
    cases hfind : room.players.findIdx? (fun p => p.guest_id = tid) with
    | none =>
      simp only [move_cards_to_player, hsrc, hfind] at h
      injection h with h
      subst h
      rfl
    | some j =>
      simp only [move_cards_to_player, hsrc, hfind] at h
      injection h with h
      subst h
      have hj : j < room.players.length :=
        (List.findIdx?_eq_some_iff_findIdx_eq.mp hfind).1
      simp only [roomCards]
      rw [(move_fold_hands cards room.players i j hj).1]

theorem dealStep_conserves (s : List PlayerInRoom × List Card) (idx : Nat) :
    handCards (dealStep s idx).1 + (((dealStep s idx).2 : List Card) : Multiset Card)
      = handCards s.1 + ((s.2 : List Card) : Multiset Card) := by
  unfold dealStep
  cases hlast : s.2.getLast? with
  | none => rfl
  | some c =>
    cases hp : s.1[idx]? with
    | none => rfl
    | some p =>
      have h1 : handCards (s.1.set idx ({ p with hand := p.hand ++ [c] }))
          = handCards s.1 + {c} :=
        set_hand_add hp _ {c} (coe_append_singleton p.hand c)
      rw [h1, ← dropLast_add_getLast hlast]
      abel

theorem deal_fold_conserves (is : List Nat) (s : List PlayerInRoom × List Card) :
    handCards (is.foldl dealStep s).1 + (((is.foldl dealStep s).2 : List Card) : Multiset Card)
      = handCards s.1 + ((s.2 : List Card) : Multiset Card) := by
  induction is generalizing s with
  | nil => rfl
  | cons a as ih =>
    simp only [List.foldl_cons]
    rw [ih (dealStep s a), dealStep_conserves s a]

theorem dealLoop_conserves (n : Nat) (s : List PlayerInRoom × List Card) :
    handCards (dealLoop n s).1 + (((dealLoop n s).2 : List Card) : Multiset Card)
      = handCards s.1 + ((s.2 : List Card) : Multiset Card) := by
  induction n generalizing s with
  | zero => rfl
  | succ m ih =>
    rw [show dealLoop (m + 1) s = dealLoop m (dealRound s.1 s.2) from rfl]
    rw [ih (dealRound s.1 s.2)]
    exact deal_fold_conserves (List.range s.1.length) (s.1, s.2)

theorem deal_cards_conserves (room : Room) (count : Nat) :
    roomCards (deal_cards room count) = roomCards room := by
  cases hgs : room.game_state with
  | none => simp only [deal_cards, hgs]
  | some gs =>
    simp only [deal_cards, hgs]
    simp only [roomCards, hgs]
    exact conserve_core4 (dealLoop_conserves count (room.players, gs.deck))

/-! ### Dispatcher turn-advance lemmas -/

theorem acting_player_spec {ps : List PlayerInRoom} {g : String}
    (hmem : ps.any (fun p => p.guest_id = g) = true) :
    ∃ player, ps[ps.findIdx (fun p => p.guest_id = g)]? = some player ∧
      player.guest_id = g := by
  have hex : ∃ x ∈ ps, (fun p : PlayerInRoom => decide (p.guest_id = g)) x := by
    simpa [List.any_eq_true] using hmem
  have hlt := List.findIdx_lt_length_of_exists hex
  refine ⟨ps[ps.findIdx (fun p => p.guest_id = g)], List.getElem?_eq_getElem hlt, ?_⟩
  have hp := List.findIdx_getElem (w := hlt)
  simpa using hp

theorem apply_action_frame {room room2 : Room} {i : Nat} {a : PAction}
    {gs : CardGameSpecificState} (hgs : room.game_state = some gs)
    (h : apply_action room i a = some room2) :
    room2.status = room.status ∧ ∃ gs2, room2.game_state = some gs2 ∧ turnFieldsEq gs gs2 := by
  cases a with
  | playCards cards =>
    simp only [apply_action, play_cards, hgs] at h
    cases hp : room.players[i]? with
    | none => rw [hp] at h; cases h
    | some player =>
      rw [hp] at h
      injection h with h
      subst h
      exact ⟨rfl, _, rfl, rfl, rfl, rfl⟩
  | discardCards cards =>
    simp only [apply_action, discard_cards, hgs] at h
    cases hp : room.players[i]? with
    | none => rw [hp] at h; cases h
    | some player =>
      rw [hp] at h
      injection h with h
      subst h
      exact ⟨rfl, _, rfl, rfl, rfl, rfl⟩
  | recallCards =>
    simp only [apply_action, recall_cards, hgs] at h
    cases hp : room.players[i]? with
    | none => rw [hp] at h; cases h
    | some player =>
      simp only [hp] at h
      by_cases hlp : gs.last_player_id = some player.guest_id
      · rw [if_neg (by simp [hlp])] at h
        cases hget : dictGet gs.last_played_or_discarded_cards player.guest_id with
        | none =>
          simp only [hget] at h
          injection h with h
          subst h
          exact ⟨rfl, gs, hgs, rfl, rfl, rfl⟩
        | some cards =>
          simp only [hget] at h
          by_cases hnil : cards = []
          · rw [if_pos hnil] at h
            injection h with h
            subst h
            exact ⟨rfl, gs, hgs, rfl, rfl, rfl⟩
          · rw [if_neg hnil] at h
            injection h with h
            subst h
            exact ⟨rfl, _, rfl, rfl, rfl, rfl⟩
      · rw [if_pos (by simp [hlp])] at h
        injection h with h
        subst h
        exact ⟨rfl, gs, hgs, rfl, rfl, rfl⟩
  | moveCardToPlayer cards tid =>
    simp only [apply_action, move_cards_to_player] at h
    cases hp : room.players[i]? with
    | none => rw [hp] at h; cases h
    | some src =>
      simp only [hp] at h
      cases hf : room.players.findIdx? (fun p => p.guest_id = tid) with
      | none =>
        simp only [hf] at h
        injection h with h
        subst h
        exact ⟨rfl, gs, hgs, rfl, rfl, rfl⟩
      | some j =>
        simp only [hf] at h
        injection h with h
        subst h
        exact ⟨rfl, gs, hgs, rfl, rfl, rfl⟩
  | shuffleDeck f =>
    simp only [apply_action, shuffle_deck, hgs] at h
    injection h with h
    subst h
    exact ⟨rfl, _, rfl, rfl, rfl, rfl⟩
  | dealCards count =>
    simp only [apply_action, deal_cards, hgs] at h
    injection h with h
    subst h
    exact ⟨rfl, _, rfl, rfl, rfl, rfl⟩

theorem handle_ok_inv {room r' : Room} {g : String} {a : PAction} {now : Nat}
    {gs : CardGameSpecificState} (hgs : room.game_state = some gs)
    (h : handle_player_action room g a now = Except.ok r') :
    r'.last_activity = now ∧ ∃ gs', r'.game_state = some gs' ∧
      gs'.turn_order = gs.turn_order ∧
      (gs.turn_order = [] → gs'.current_player_index = gs.current_player_index ∧
        gs'.turn_number = gs.turn_number) ∧
      (gs.turn_order ≠ [] →
        gs'.current_player_index
            = some ((gs.current_player_index.getD 0 + 1) % gs.turn_order.length) ∧
        gs'.turn_number = gs.turn_number + 1) := by
  unfold handle_player_action at h
  by_cases hmem : room.players.any (fun p => p.guest_id = g)
  · rw [if_neg (by simp [hmem])] at h
    by_cases hst : room.status = "active"
    · rw [if_neg (by simp [hst])] at h
      simp only [hgs] at h
      cases hval : validate_action room gs (room.players.findIdx (fun p => p.guest_id = g)) a with
      | some e => simp only [hval] at h; cases h
      | none =>
        simp only [hval] at h
        cases happ : apply_action room (room.players.findIdx (fun p => p.guest_id = g)) a with
        | none => simp only [happ] at h; cases h
        | some room2 =>
          simp only [happ] at h
          obtain ⟨hst2, gs2, hgs2, hto, hci, htn⟩ := apply_action_frame hgs happ
          simp only [hgs2] at h
          by_cases hord : gs2.turn_order = []
          · rw [if_pos hord] at h
            injection h with h
            subst h
            refine ⟨rfl, gs2, rfl, hto, fun _ => ⟨hci, htn⟩, fun hne => absurd ?_ hne⟩
            rw [← hto, hord]
          · rw [if_neg hord] at h
            injection h with h
            subst h
            refine ⟨rfl, _, rfl, hto, ?_, ?_⟩
            · intro he
              exact absurd (hto.trans he) hord
            · intro _
              constructor
              · simp only [hto, hci]
              · simp only [htn]
        
    · rw [if_pos (by simp [hst])] at h
      cases h
  · rw [if_pos (by simp [hmem])] at h
    cases h

theorem runActions_turn {acts : List (String × PAction × Nat)} :
    ∀ {room r' : Room} {gs : CardGameSpecificState} {k : Nat},
    room.game_state = some gs → gs.turn_order ≠ [] →
    gs.current_player_index = some (k % gs.turn_order.length) →
    runActions room acts = Except.ok r' →
    ∃ gs', r'.game_state = some gs' ∧ gs'.turn_order = gs.turn_order ∧
      gs'.current_player_index = some ((k + acts.length) % gs.turn_order.length) ∧
      gs'.turn_number = gs.turn_number + acts.length := by
  induction acts with
  | nil =>
    intro room r' gs k hgs hne hidx h
    injection h with h
    subst h
    exact ⟨gs, hgs, rfl, by simpa using hidx, rfl⟩
  | cons act rest ih =>
    intro room r' gs k hgs hne hidx h
    obtain ⟨g, a, now⟩ := act
    simp only [runActions] at h
    cases hstep : handle_player_action room g a now with
    | error e => rw [hstep] at h; cases h
    | ok r2 =>
      rw [hstep] at h
      obtain ⟨-, gs2, hgs2, hto, -, hadv⟩ := handle_ok_inv hgs hstep
      obtain ⟨hci, htn⟩ := hadv hne
      have hidx2 : gs2.current_player_index = some ((k + 1) % gs2.turn_order.length) := by
        rw [hci, hidx, hto]
        simp only [Option.getD_some]
        rw [Nat.mod_add_mod]
      have hne2 : gs2.turn_order ≠ [] := by rw [hto]; exact hne
      obtain ⟨gs', hg', ht', hi', hn'⟩ := ih hgs2 hne2 hidx2 h
      refine ⟨gs', hg', by rw [ht', hto], ?_, ?_⟩
      · rw [hi', hto]
        rw [List.length_cons]
        congr 2
        omega
      · rw [hn', htn]
        rw [List.length_cons]
        omega

/-! ### Claim theorems -/

/-- Claim C1 (amended): card conservation. The operations discard, transfer,
shuffle, deal, draw, draw-to-discard and draw-from-discard preserve the
multiset union of deck, hands, discard pile and table piles unconditionally;
play preserves it when the played card list is a sub-multiset of the acting
player's hand; recall preserves it when every recorded card list for the
acting last actor is empty or still present as a pile on the table. (As
stated in the claim the property is false: recall after a discard finds no
such table pile, removes nothing, and still appends the recorded cards to
the hand, duplicating them — see the counterexample.) -/
theorem C1_card_conservation (room : Room) :
    (∀ i cards r', discard_cards room i cards = some r' → roomCards r' = roomCards room)
  ∧ (∀ i cards tid r', move_cards_to_player room i cards tid = some r' →
      roomCards r' = roomCards room)
  ∧ (∀ f, (∀ l, List.Perm (f l) l) → roomCards (shuffle_deck room f) = roomCards room)
  ∧ (∀ n, roomCards (deal_cards room n) = roomCards room)
  ∧ (∀ i r', draw_card room i = some r' → roomCards r' = roomCards room)
  ∧ roomCards (draw_to_discard room) = roomCards room
  ∧ (∀ i r', draw_from_discard room i = some r' → roomCards r' = roomCards room)
  ∧ (∀ (i : Nat) (cards : List Card) (player : PlayerInRoom) (r' : Room),
      room.players[i]? = some player →
      (cards : Multiset Card) ≤ (player.hand : Multiset Card) →
      play_cards room i cards = some r' → roomCards r' = roomCards room)
  ∧ (∀ i r', (∀ gs player cards, room.game_state = some gs →
        room.players[i]? = some player →
        gs.last_player_id = some player.guest_id →
        dictGet gs.last_played_or_discarded_cards player.guest_id = some cards →
        cards = [] ∨ cards ∈ gs.table) →
      recall_cards room i = some r' → roomCards r' = roomCards room) :=
  ⟨fun _ _ _ h => discard_cards_conserves h,
   fun _ _ _ _ h => move_cards_to_player_conserves h,
   fun f hf => shuffle_deck_conserves room f hf,
   fun n => deal_cards_conserves room n,
   fun _ _ h => draw_card_conserves h,
   draw_to_discard_conserves room,
   fun _ _ h => draw_from_discard_conserves h,
   fun _ _ _ _ hp hle h => play_cards_conserves hp hle h,
   fun _ _ hrec h => recall_cards_conserves hrec h⟩

/-- Claim C1 counterexample: in `recallRoom` the last action of player a was
a discard of `cardH2`; recalling duplicates the card — the union after
recall has one card more than before, refuting preservation as claimed. -/
theorem C1_counterexample :
    (recall_cards recallRoom 0).map roomCards ≠ some (roomCards recallRoom) ∧
    (recall_cards recallRoom 0).map (fun r => Multiset.card (roomCards r))
      = some (Multiset.card (roomCards recallRoom) + 1) := by
  decide

/-- Claim C1 witness: the play and recall conjuncts applied to concrete
rooms, with all hypotheses discharged. -/
theorem C1_card_conservation_witness :
    roomCards playRoomAfter = roomCards playRoom ∧
    roomCards recallGoodAfter = roomCards recallGoodRoom := by
  constructor
  · exact (C1_card_conservation playRoom).2.2.2.2.2.2.2.1 0 [cardH2] playerA1
      playRoomAfter rfl (by decide) rfl
  · refine (C1_card_conservation recallGoodRoom).2.2.2.2.2.2.2.2 0 recallGoodAfter ?_ rfl
    intro gs player cards hgs hp hlp hget
    have e1 : gs = recallGoodGs :=
      (Option.some.inj (show some recallGoodGs = some gs from hgs)).symm
    subst e1
    have e2 : player = playerA :=
      (Option.some.inj (show some playerA = some player from hp)).symm
    subst e2
    have e3 : cards = [cardH2] :=
      (Option.some.inj (show some [cardH2] = some cards from hget)).symm
    subst e3
    exact Or.inr (by decide)

/-- Claim C4 (confirmed): starting from an active game whose turn order has
length `P > 0` and whose current player index is 0, any sequence of `N`
successfully validated-and-applied player actions leaves the current player
index at `N mod P` and increments the turn counter `N` times. -/
theorem C4_turn_rotation (room : Room) (gs : CardGameSpecificState) (P : Nat)
    (acts : List (String × PAction × Nat)) (r' : Room)
    (hgs : room.game_state = some gs) (hP : gs.turn_order.length = P) (hpos : 0 < P)
    (hidx : gs.current_player_index = some 0)
    (h : runActions room acts = Except.ok r') :
    (r'.game_state.map (fun gs' => (gs'.current_player_index, gs'.turn_number)))
      = some (some (acts.length % P), gs.turn_number + acts.length) := by
  have hne : gs.turn_order ≠ [] := by
    intro he
    rw [he] at hP
    simp only [List.length_nil] at hP
    omega
  have hidx0 : gs.current_player_index = some (0 % gs.turn_order.length) := by
    rw [hidx, Nat.zero_mod]
  obtain ⟨gs', hg', ht', hi', hn'⟩ := runActions_turn hgs hne hidx0 h
  rw [hg']
  rw [show (some gs').map (fun gs2 => (gs2.current_player_index, gs2.turn_number))
      = some (gs'.current_player_index, gs'.turn_number) from rfl]
  rw [hi', hn', hP, Nat.zero_add]

/-- Claim C4 witness: three empty discards by a, b, a in a two-player game
land on index 3 mod 2 = 1 with turn counter 3. -/
theorem C4_turn_rotation_witness :
    (rotAfter.game_state.map (fun gs' => (gs'.current_player_index, gs'.turn_number)))
      = some (some (rotActs.length % 2), playGs.turn_number + rotActs.length) :=
  C4_turn_rotation playRoom playGs 2 rotActs rotAfter rfl rfl (by decide) rfl rfl

/-- Claim C10 (amended): every player action that passes the dispatcher's
validation reaches the success path (the room is persisted and broadcast),
and the turn advance is guarded on a nonempty turn order: with a nonempty
turn order the index advances by one modulo its length and the turn counter
increments, but with an empty turn order (as produced by the websocket start
handler) both turn fields are left untouched. -/
theorem C10_validated_action_turn (room r' : Room) (g : String) (a : PAction) (now : Nat)
    (gs : CardGameSpecificState) (hgs : room.game_state = some gs)
    (h : handle_player_action room g a now = Except.ok r') :
    r'.last_activity = now ∧ ∃ gs', r'.game_state = some gs' ∧
      gs'.turn_order = gs.turn_order ∧
      (gs.turn_order = [] → gs'.current_player_index = gs.current_player_index ∧
        gs'.turn_number = gs.turn_number) ∧
      (gs.turn_order ≠ [] →
        gs'.current_player_index
            = some ((gs.current_player_index.getD 0 + 1) % gs.turn_order.length) ∧
        gs'.turn_number = gs.turn_number + 1) :=
  handle_ok_inv hgs h

/-- Claim C10 counterexample: in a room whose game state has an empty turn
order, a validated (successful) recall action leaves the turn counter at 0 —
the claim that every validated action increments it is false. -/
theorem C10_counterexample :
    (handle_player_action emptyOrderRoom "b" PAction.recallCards 7).isOk = true ∧
    okTurnNumber (handle_player_action emptyOrderRoom "b" PAction.recallCards 7) = some 0 := by
  decide

/-- Claim C10 witness: the amended theorem applied to a concrete mismatched
recall in a room with turn order of length 2. -/
theorem C10_validated_action_turn_witness :
    mismatchAfter.last_activity = 7 ∧ ∃ gs', mismatchAfter.game_state = some gs' ∧
      gs'.turn_order = recallGs.turn_order ∧
      (recallGs.turn_order = [] → gs'.current_player_index = recallGs.current_player_index ∧
        gs'.turn_number = recallGs.turn_number) ∧
      (recallGs.turn_order ≠ [] →
        gs'.current_player_index
            = some ((recallGs.current_player_index.getD 0 + 1) % recallGs.turn_order.length) ∧
        gs'.turn_number = recallGs.turn_number + 1) :=
  C10_validated_action_turn recallRoom mismatchAfter "b" PAction.recallCards 7 recallGs rfl rfl

/-- Claim C2 (amended): a recall by a player who is not the recorded last
actor (or with a missing or empty record) is not rejected by validation
unless the table is empty. With an empty table validation fails and nothing
is persisted; with a nonempty table the dispatch succeeds: no card moves and
the last-play record is untouched (players, deck, discard, table, record all
keep their values), but the turn index and turn counter still advance when
the turn order is nonempty, and the room is persisted with a refreshed
`last_activity`. -/
theorem C2_recall_exclusivity (room : Room) (gs : CardGameSpecificState) (g : String)
    (now : Nat)
    (hmem : room.players.any (fun p => p.guest_id = g) = true)
    (hst : room.status = "active") (hgs : room.game_state = some gs)
    (hne : gs.last_player_id ≠ some g ∨
      dictGet gs.last_played_or_discarded_cards g = none ∨
      dictGet gs.last_played_or_discarded_cards g = some []) :
    (gs.table = [] → handle_player_action room g PAction.recallCards now
      = Except.error "No cards on the table to recall")
  ∧ (gs.table ≠ [] → ∃ r2, handle_player_action room g PAction.recallCards now
      = Except.ok r2 ∧
      r2.players = room.players ∧ r2.status = room.status ∧ r2.host_id = room.host_id ∧
      r2.settings = room.settings ∧ r2.last_activity = now ∧
      ∃ gs2, r2.game_state = some gs2 ∧ gs2.deck = gs.deck ∧
        gs2.discard_pile = gs.discard_pile ∧ gs2.table = gs.table ∧
        gs2.last_player_id = gs.last_player_id ∧
        gs2.last_played_or_discarded_cards = gs.last_played_or_discarded_cards ∧
        gs2.turn_order = gs.turn_order ∧
        (gs.turn_order = [] → gs2 = gs) ∧
        (gs.turn_order ≠ [] →
          gs2.current_player_index
              = some ((gs.current_player_index.getD 0 + 1) % gs.turn_order.length) ∧
          gs2.turn_number = gs.turn_number + 1)) := by
  obtain ⟨player, hp, hpg⟩ := acting_player_spec hmem
  constructor
  · intro htab
    unfold handle_player_action
    rw [if_neg (by simp [hmem])]
    rw [if_neg (by simp [hst])]
    simp only [hgs]
    rw [show validate_action room gs (room.players.findIdx (fun p => p.guest_id = g))
        PAction.recallCards = some "No cards on the table to recall" from by
      simp [validate_action, htab]]
  · intro htab
    have happ : recall_cards room (room.players.findIdx (fun p => p.guest_id = g))
        = some room := by
      simp only [recall_cards, hgs, hp, hpg]
      rcases hne with h1 | h2 | h3
      · rw [if_pos h1]
      · by_cases hlp : gs.last_player_id = some g
        · rw [if_neg (by simp [hlp]), h2]
        · rw [if_pos hlp]
      · by_cases hlp : gs.last_player_id = some g
        · rw [if_neg (by simp [hlp]), h3]
          rfl
        · rw [if_pos hlp]
    unfold handle_player_action
    rw [if_neg (by simp [hmem])]
    rw [if_neg (by simp [hst])]
    simp only [hgs]
    rw [show validate_action room gs (room.players.findIdx (fun p => p.guest_id = g))
        PAction.recallCards = none from by simp [validate_action, htab]]
    simp only [apply_action, happ, hgs]
    by_cases hord : gs.turn_order = []
    · rw [if_pos hord]
      refine ⟨_, rfl, rfl, rfl, rfl, rfl, rfl, gs, rfl, rfl, rfl, rfl, rfl, rfl, rfl,
        fun _ => rfl, fun hne2 => absurd hord hne2⟩
    · rw [if_neg hord]
      refine ⟨_, rfl, rfl, rfl, rfl, rfl, rfl, _, rfl, rfl, rfl, rfl, rfl, rfl, rfl,
        fun he => absurd he hord, fun _ => ⟨rfl, rfl⟩⟩

/-- Claim C2 counterexample: in `recallRoom` the recorded last actor is a,
yet the recall dispatched for b succeeds (no validation failure) and the
turn counter moves from 0 to 1, so the room state does not keep its prior
values. -/
theorem C2_counterexample :
    (handle_player_action recallRoom "b" PAction.recallCards 7).isOk = true ∧
    okTurnNumber (handle_player_action recallRoom "b" PAction.recallCards 7) = some 1 := by
  decide

/-- Claim C2 witness: the amended theorem applied to the concrete mismatched
recall in `recallRoom`. -/
theorem C2_recall_exclusivity_witness :
    ∃ r2, handle_player_action recallRoom "b" PAction.recallCards 7 = Except.ok r2 ∧
      r2.players = recallRoom.players ∧ r2.status = recallRoom.status ∧
      r2.host_id = recallRoom.host_id ∧ r2.settings = recallRoom.settings ∧
      r2.last_activity = 7 ∧
      ∃ gs2, r2.game_state = some gs2 ∧ gs2.deck = recallGs.deck ∧
        gs2.discard_pile = recallGs.discard_pile ∧ gs2.table = recallGs.table ∧
        gs2.last_player_id = recallGs.last_player_id ∧
        gs2.last_played_or_discarded_cards = recallGs.last_played_or_discarded_cards ∧
        gs2.turn_order = recallGs.turn_order ∧
        (recallGs.turn_order = [] → gs2 = recallGs) ∧
        (recallGs.turn_order ≠ [] →
          gs2.current_player_index
              = some ((recallGs.current_player_index.getD 0 + 1) % recallGs.turn_order.length) ∧
          gs2.turn_number = recallGs.turn_number + 1) :=
  (C2_recall_exclusivity recallRoom recallGs "b" 7 (by decide) rfl rfl
    (Or.inl (by decide))).2 (by decide)

/-- Claim C3 (amended): when the acting player is the recorded last actor
and a nonempty recorded card list exists, recall appends exactly the
recorded cards to the acting player's hand, clears the record (recorded
cards and actor), and removes the recorded pile from the table when it is
present there as an exact pile; the discard pile is never modified, and when
the recorded cards are not a table pile (in particular when the last action
was a discard) nothing is removed from any pile while the cards are still
appended to the hand. -/
theorem C3_recall_success (room : Room) (gs : CardGameSpecificState) (i : Nat)
    (player : PlayerInRoom) (cards : List Card)
    (hgs : room.game_state = some gs) (hp : room.players[i]? = some player)
    (hlp : gs.last_player_id = some player.guest_id)
    (hget : dictGet gs.last_played_or_discarded_cards player.guest_id = some cards)
    (hne : cards ≠ []) :
    (∃ r', recall_cards room i = some r' ∧
      r'.players = room.players.set i ({ player with hand := player.hand ++ cards }) ∧
      r'.status = room.status ∧ r'.host_id = room.host_id ∧
      ∃ gs', r'.game_state = some gs' ∧
        gs'.table = @List.erase (List Card) instBEqOfDecidableEq gs.table cards ∧
        gs'.discard_pile = gs.discard_pile ∧
        gs'.deck = gs.deck ∧
        gs'.last_player_id = none ∧
        gs'.last_played_or_discarded_cards
            = dictPop gs.last_played_or_discarded_cards player.guest_id)
  ∧ (cards ∉ gs.table →
      @List.erase (List Card) instBEqOfDecidableEq gs.table cards = gs.table) := by
  constructor
  · simp only [recall_cards, hgs, hp]
    rw [if_neg (by simp [hlp])]
    simp only [hget]
    rw [if_neg hne]
    exact ⟨_, rfl, rfl, rfl, rfl, _, rfl, rfl, rfl, rfl, rfl, rfl⟩
  · intro hmem2
    exact @List.erase_of_not_mem (List Card) instBEqOfDecidableEq inferInstance cards
      gs.table hmem2

/-- Claim C3 counterexample: in `recallRoom` the last action was a discard of
`cardH2`; after a recall by a the discard pile still contains the card (the
claimed removal of the flattened entries from the discard pile does not
happen) while the hand gains it. -/
theorem C3_counterexample :
    (recall_cards recallRoom 0).map (fun r => r.game_state.map
      (fun gs => gs.discard_pile)) = some (some [cardH2]) ∧
    (recall_cards recallRoom 0).map (fun r => r.players.map
      (fun p => p.hand)) = some [[cardH2], []] := by
  decide

/-- Claim C3 witness: the amended theorem applied to the concrete
recall-after-discard state. -/
theorem C3_recall_success_witness :
    (∃ r', recall_cards recallRoom 0 = some r' ∧
      r'.players = recallRoom.players.set 0
        ({ playerA with hand := playerA.hand ++ [cardH2] }) ∧
      r'.status = recallRoom.status ∧ r'.host_id = recallRoom.host_id ∧
      ∃ gs', r'.game_state = some gs' ∧
        gs'.table = @List.erase (List Card) instBEqOfDecidableEq recallGs.table [cardH2] ∧
        gs'.discard_pile = recallGs.discard_pile ∧
        gs'.deck = recallGs.deck ∧
        gs'.last_player_id = none ∧
        gs'.last_played_or_discarded_cards
            = dictPop recallGs.last_played_or_discarded_cards playerA.guest_id)
  ∧ ([cardH2] ∉ recallGs.table →
      @List.erase (List Card) instBEqOfDecidableEq recallGs.table [cardH2] = recallGs.table) :=
  C3_recall_success recallRoom recallGs 0 playerA [cardH2] rfl rfl rfl rfl (by decide)

/-! ### Start-game precondition lemmas -/

theorem popCards_spec (n : Nat) :
    ∀ deck : List Card,
    (n ≤ deck.length → ∃ s, popCards n deck = some s ∧ s.1.length = n ∧
      s.2.length = deck.length - n)
  ∧ (deck.length < n → popCards n deck = none) := by
  induction n with
  | zero =>
    intro deck
    exact ⟨fun _ => ⟨([], deck), rfl, rfl, rfl⟩, fun h => absurd h (by omega)⟩
  | succ m ih =>
    intro deck
    constructor
    · intro hle
      have hne : deck ≠ [] := by
        intro he
        subst he
        simp at hle
      obtain ⟨c, hc⟩ : ∃ c, deck.getLast? = some c := by
        cases hl : deck.getLast? with
        | none => exact absurd (List.getLast?_eq_none_iff.mp hl) hne
        | some c => exact ⟨c, rfl⟩
      have hlen : deck.dropLast.length = deck.length - 1 := List.length_dropLast deck
      have hpos : 1 ≤ deck.length := List.length_pos.mpr hne
      have hm : m ≤ deck.dropLast.length := by omega
      obtain ⟨s, hs, hs1, hs2⟩ := (ih deck.dropLast).1 hm
      refine ⟨(c :: s.1, s.2), ?_, ?_, ?_⟩
      · simp only [popCards, hc, hs]
      · simp [hs1]
      · rw [hs2, hlen]
        omega
    · intro hlt
      cases hl : deck.getLast? with
      | none => simp only [popCards, hl]
      | some c =>
        have hne : deck ≠ [] := by
          intro he
          subst he
          simp at hl
        have hpos : 1 ≤ deck.length := List.length_pos.mpr hne
        have hlen : deck.dropLast.length = deck.length - 1 := List.length_dropLast deck
        have hm : deck.dropLast.length < m := by omega
        simp only [popCards, hl, (ih deck.dropLast).2 hm]

theorem popCards_length {n : Nat} :
    ∀ {deck : List Card} {s : List Card × List Card},
    popCards n deck = some s → s.1.length = n := by
  induction n with
  | zero =>
    intro deck s h
    injection h with h
    subst h
    rfl
  | succ m ih =>
    intro deck s h
    cases hl : deck.getLast? with
    | none => rw [show popCards (m + 1) deck = none from by simp only [popCards, hl]] at h; cases h
    | some c =>
      simp only [popCards, hl] at h
      cases hr : popCards m deck.dropLast with
      | none => rw [hr] at h; cases h
      | some s2 =>
        rw [hr] at h
        injection h with h
        subst h
        simp [ih hr]

theorem buildHands_spec (n : Nat) :
    ∀ (ps : List PlayerInRoom) (deck : List Card) (acc : List (String × List Card)),
    (ps.length * n ≤ deck.length → ∃ s, buildHands n ps deck acc = some s ∧
      s.2.length = deck.length - ps.length * n)
  ∧ (deck.length < ps.length * n → buildHands n ps deck acc = none) := by
  intro ps
  induction ps with
  | nil =>
    intro deck acc
    exact ⟨fun _ => ⟨(acc, deck), rfl, by simp⟩, fun h => absurd h (by simp)⟩
  | cons p ps ih =>
    intro deck acc
    have hsm : (p :: ps).length * n = ps.length * n + n := by
      simp [List.length_cons, Nat.succ_mul]
    constructor
    · intro hle
      rw [hsm] at hle
      have hle2 : n ≤ deck.length := le_trans (Nat.le_add_left n (ps.length * n)) hle
      obtain ⟨s1, hs1, hl1, hl2⟩ := (popCards_spec n deck).1 hle2
      have hrest : ps.length * n ≤ s1.2.length := by
        rw [hl2]
        exact Nat.le_sub_of_add_le hle
      obtain ⟨s2, hs2, hlen2⟩ := (ih s1.2 (dictSet acc p.guest_id s1.1)).1 hrest
      refine ⟨s2, ?_, ?_⟩
      · simp only [buildHands, hs1, hs2]
      · rw [hlen2, hl2, Nat.sub_sub, hsm, Nat.add_comm]
    · intro hlt
      rw [hsm] at hlt
      by_cases hc : n ≤ deck.length
      · obtain ⟨s1, hs1, hl1, hl2⟩ := (popCards_spec n deck).1 hc
        have hlt2 : s1.2.length < ps.length * n := by
          rw [hl2]
          omega
        simp only [buildHands, hs1, (ih s1.2 (dictSet acc p.guest_id s1.1)).2 hlt2]
      · have hd : deck.length < n := Nat.lt_of_not_le hc
        simp only [buildHands, (popCards_spec n deck).2 hd]

theorem crud_start_game_isSome (room : Room) (f : List Card → List Card) :
    (crud_start_game room f).isSome = true ↔
      (room.players ≠ [] ∧
        room.players.length * room.settings.initial_deal_count
          ≤ (f (crud_create_deck_base room.settings)).length) := by
  cases hb : buildHands room.settings.initial_deal_count room.players
      (f (crud_create_deck_base room.settings)) [] with
  | none =>
    have hlt : (f (crud_create_deck_base room.settings)).length <
        room.players.length * room.settings.initial_deal_count := by
      by_contra hc
      obtain ⟨s, hs, -⟩ := (buildHands_spec room.settings.initial_deal_count room.players
        (f (crud_create_deck_base room.settings)) []).1 (Nat.le_of_not_lt hc)
      rw [hs] at hb
      cases hb
    simp only [crud_start_game, hb]
    constructor
    · intro h
      simp at h
    · rintro ⟨-, h2⟩
      exact absurd h2 (Nat.not_le_of_lt hlt)
  | some s =>
    have hsuff : room.players.length * room.settings.initial_deal_count
        ≤ (f (crud_create_deck_base room.settings)).length := by
      by_contra hc
      have := (buildHands_spec room.settings.initial_deal_count room.players
        (f (crud_create_deck_base room.settings)) []).2 (Nat.lt_of_not_le hc)
      rw [this] at hb
      cases hb
    simp only [crud_start_game, hb]
    cases hh : room.players.head? with
    | none =>
      have hnil : room.players = [] := List.head?_eq_none_iff.mp hh
      constructor
      · intro h
        simp at h
      · rintro ⟨h1, -⟩
        exact absurd hnil h1
    | some p0 =>
      have hne : room.players ≠ [] := by
        intro he
        rw [he] at hh
        cases hh
      simp only [hh]
      exact ⟨fun _ => ⟨hne, hsuff⟩, fun _ => rfl⟩

/-- Claim C5 (amended): the REST start endpoint succeeds exactly when the
caller is the host, every player is ready, the room has at least one player
and the (shuffled) deck has enough cards for the initial deal — it does not
require two players. The websocket start handler succeeds exactly when the
caller is the host, the room is not already active and there are at least
two players — it does not require the players to be ready. Every rejection
returns an error without modifying the room. -/
theorem C5_start_game_preconditions (room : Room) (caller : String)
    (f : List Card → List Card) (now : Nat) :
    ((rest_start_game room caller f).isSome = true ↔
      (room.host_id = caller ∧ room.players.all (fun p => p.is_ready) = true ∧
        room.players ≠ [] ∧
        room.players.length * room.settings.initial_deal_count
          ≤ (f (crud_create_deck_base room.settings)).length))
  ∧ ((ws_handle_start_game room caller f now).isOk = true ↔
      (room.host_id = caller ∧ room.status ≠ "active" ∧ 2 ≤ room.players.length)) := by
  constructor
  · unfold rest_start_game
    by_cases h1 : room.host_id = caller
    · rw [if_neg (by simp [h1])]
      by_cases h2 : room.players.all (fun p => p.is_ready) = true
      · rw [if_neg (by simp [h2])]
        rw [crud_start_game_isSome]
        constructor
        · rintro ⟨a, b⟩
          exact ⟨h1, h2, a, b⟩
        · rintro ⟨-, -, a, b⟩
          exact ⟨a, b⟩
      · rw [if_pos (by simpa using h2)]
        constructor
        · intro h
          simp at h
        · rintro ⟨-, hb, -⟩
          exact absurd hb h2
    · rw [if_pos h1]
      constructor
      · intro h
        simp at h
      · rintro ⟨ha, -⟩
        exact absurd ha h1
  · unfold ws_handle_start_game
    by_cases h1 : room.host_id = caller
    · rw [if_neg (by simp [h1])]
      by_cases h2 : room.status = "active"
      · rw [if_pos h2]
        constructor
        · intro h
          simp [Except.isOk, Except.toBool] at h
        · rintro ⟨-, hb, -⟩
          exact absurd h2 hb
      · rw [if_neg h2]
        by_cases h3 : room.players.length < 2
        · rw [if_pos h3]
          constructor
          · intro h
            simp [Except.isOk, Except.toBool] at h
          · rintro ⟨-, -, hc⟩
            omega
        · rw [if_neg h3]
          exact ⟨fun _ => ⟨h1, h2, Nat.le_of_not_lt h3⟩, fun _ => rfl⟩
    · rw [if_pos h1]
      constructor
      · intro h
        simp [Except.isOk, Except.toBool] at h
      · rintro ⟨ha, -⟩
        exact absurd ha h1

/-- Claim C5 counterexample: a one-player room whose single ready player is
the host starts successfully through the REST endpoint, and a two-player
room with a non-ready player starts successfully through the websocket
handler — both contradict the claim that start succeeds only with at least
two players all of whom are ready. -/
theorem C5_counterexample :
    soloRoom.players.length = 1 ∧ (rest_start_game soloRoom "a" id).isSome = true ∧
    (notReadyRoom.players.all (fun p => p.is_ready)) = false ∧
    (ws_handle_start_game notReadyRoom "a" id 3).isOk = true := by
  decide

/-- Claim C5 witness: both directions of the amended characterization applied
to concrete rooms. -/
theorem C5_start_game_preconditions_witness :
    (rest_start_game soloRoom "a" id).isSome = true ∧
    (ws_handle_start_game notReadyRoom "a" id 3).isOk = true :=
  ⟨(C5_start_game_preconditions soloRoom "a" id 0).1.mpr
      ⟨rfl, by decide, by decide, by decide⟩,
   (C5_start_game_preconditions notReadyRoom "a" id 3).2.mpr
      ⟨rfl, by decide, by decide⟩⟩

/-! ### Dict and dealing lemmas for the initial deal -/

theorem dictGet_cons_ne {e : String × List Card} {rest : List (String × List Card)}
    {k : String} (he : e.1 ≠ k) : dictGet (e :: rest) k = dictGet rest k := by
  simp [dictGet, he]

theorem dictGet_map_set (d : List (String × List Card)) (k : String) (v : List Card)
    (hany : d.any (fun p => p.1 = k) = true) :
    dictGet (d.map (fun p => if p.1 = k then (k, v) else p)) k = some v := by
  induction d with
  | nil => simp at hany
  | cons e d ih =>
    by_cases he : e.1 = k
    · simp [dictGet, he]
    · have hd : d.any (fun p => p.1 = k) = true := by
        simpa [List.any_cons, he] using hany
      simp only [List.map_cons, if_neg he]
      rw [dictGet_cons_ne he]
      exact ih hd

theorem dictGet_append_single_self (d : List (String × List Card)) (k : String)
    (v : List Card) (hnone : d.any (fun p => p.1 = k) = false) :
    dictGet (d ++ [(k, v)]) k = some v := by
  have hfind : d.find? (fun p => p.1 = k) = none := by
    rw [List.find?_eq_none]
    intro x hx
    simp only [List.any_eq_false] at hnone
    exact hnone x hx
  simp [dictGet, List.find?_append, hfind]

theorem dictGet_set_self (d : List (String × List Card)) (k : String) (v : List Card) :
    dictGet (dictSet d k v) k = some v := by
  unfold dictSet
  by_cases hany : d.any (fun p => p.1 = k) = true
  · rw [if_pos hany]
    exact dictGet_map_set d k v hany
  · rw [if_neg hany]
    exact dictGet_append_single_self d k v (Bool.eq_false_iff.mpr hany)

theorem dictGet_map_frame (d : List (String × List Card)) (k : String) (v : List Card)
    (g : String) (hg : g ≠ k) :
    dictGet (d.map (fun p => if p.1 = k then (k, v) else p)) g = dictGet d g := by
  induction d with
  | nil => rfl
  | cons e d ih =>
    simp only [List.map_cons]
    by_cases he : e.1 = k
    · rw [if_pos he]
      rw [dictGet_cons_ne (show ((k, v) : String × List Card).1 ≠ g from Ne.symm hg)]
      rw [dictGet_cons_ne (show e.1 ≠ g from by rw [he]; exact Ne.symm hg)]
      exact ih
    · rw [if_neg he]
      by_cases hge : e.1 = g
      · simp [dictGet, hge]
      · rw [dictGet_cons_ne hge, dictGet_cons_ne hge]
        exact ih

theorem dictGet_append_frame (d : List (String × List Card)) (k : String) (v : List Card)
    (g : String) (hg : g ≠ k) :
    dictGet (d ++ [(k, v)]) g = dictGet d g := by
  have hfind : List.find? (fun p => p.1 = g) [(k, v)] = none := by
    simp only [List.find?_cons]
    rw [decide_eq_false (Ne.symm hg)]
    rfl
  simp [dictGet, List.find?_append, hfind]

theorem dictGet_set_ne (d : List (String × List Card)) (k : String) (v : List Card)
    (g : String) (hg : g ≠ k) :
    dictGet (dictSet d k v) g = dictGet d g := by
  unfold dictSet
  by_cases hany : d.any (fun p => p.1 = k) = true
  · rw [if_pos hany]
    exact dictGet_map_frame d k v g hg
  · rw [if_neg hany]
    exact dictGet_append_frame d k v g hg

theorem buildHands_get_frame (n : Nat) :
    ∀ (ps : List PlayerInRoom) (deck : List Card) (acc : List (String × List Card))
      (s : List (String × List Card) × List Card),
    buildHands n ps deck acc = some s →
    ∀ g, (∀ p ∈ ps, p.guest_id ≠ g) → dictGet s.1 g = dictGet acc g := by
  intro ps
  induction ps with
  | nil =>
    intro deck acc s h g hall
    injection h with h
    subst h
    rfl
  | cons q ps ih =>
    intro deck acc s h g hall
    cases hpc : popCards n deck with
    | none => simp only [buildHands, hpc] at h; cases h
    | some s1 =>
      simp only [buildHands, hpc] at h
      have hrec := ih s1.2 (dictSet acc q.guest_id s1.1) s h g
        (fun p hp => hall p (List.mem_cons_of_mem q hp))
      rw [hrec]
      exact dictGet_set_ne acc q.guest_id s1.1 g
        (fun h2 => hall q (List.mem_cons_self q ps) h2.symm)

theorem buildHands_lengths (n : Nat) :
    ∀ (ps : List PlayerInRoom) (deck : List Card) (acc : List (String × List Card))
      (s : List (String × List Card) × List Card),
    buildHands n ps deck acc = some s →
    (ps.map (fun p => p.guest_id)).Nodup →
    ∀ p ∈ ps, ∃ v, dictGet s.1 p.guest_id = some v ∧ v.length = n := by
  intro ps
  induction ps with
  | nil =>
    intro deck acc s h hnd p hp
    simp at hp
  | cons q ps ih =>
    intro deck acc s h hnd p hp
    cases hpc : popCards n deck with
    | none => simp only [buildHands, hpc] at h; cases h
    | some s1 =>
      simp only [buildHands, hpc] at h
      have hnd2 : (q.guest_id ∉ ps.map (fun x => x.guest_id)) ∧
          (ps.map (fun x => x.guest_id)).Nodup := by
        simpa [List.nodup_cons] using hnd
      rcases List.mem_cons.mp hp with he | hm
      · subst he
        have hnotin : ∀ r ∈ ps, r.guest_id ≠ p.guest_id := by
          intro r hr he2
          exact hnd2.1 (he2 ▸ List.mem_map_of_mem (fun x => x.guest_id) hr)
        have hfr := buildHands_get_frame n ps s1.2 (dictSet acc p.guest_id s1.1) s h
          p.guest_id hnotin
        rw [hfr, dictGet_set_self]
        exact ⟨s1.1, rfl, popCards_length hpc⟩
      · exact ih s1.2 (dictSet acc q.guest_id s1.1) s h hnd2.2 p hm

theorem crud_start_hands (room : Room) (f : List Card → List Card)
    (hnd : (room.players.map (fun p => p.guest_id)).Nodup)
    (hne : room.players ≠ [])
    (hsuff : room.players.length * room.settings.initial_deal_count
      ≤ (f (crud_create_deck_base room.settings)).length) :
    ∃ r', crud_start_game room f = some r' ∧
      ∀ p ∈ r'.players, p.hand.length = room.settings.initial_deal_count := by
  obtain ⟨s, hs, -⟩ := (buildHands_spec room.settings.initial_deal_count room.players
    (f (crud_create_deck_base room.settings)) []).1 hsuff
  cases hh : room.players.head? with
  | none => exact absurd (List.head?_eq_none_iff.mp hh) hne
  | some p0 =>
    simp only [crud_start_game, hs, hh]
    refine ⟨_, rfl, ?_⟩
    intro p hp
    obtain ⟨q, hq, he⟩ := List.mem_map.mp hp
    obtain ⟨v, hv, hvl⟩ := buildHands_lengths room.settings.initial_deal_count room.players
      (f (crud_create_deck_base room.settings)) [] s hs hnd q hq
    rw [← he]
    simp [hv, hvl]

theorem dealFold_spec (ps : List PlayerInRoom) (deck : List Card) :
    ∀ m, m ≤ ps.length → m ≤ deck.length →
    ((List.range m).foldl dealStep (ps, deck)).1.length = ps.length ∧
    ((List.range m).foldl dealStep (ps, deck)).2.length = deck.length - m ∧
    (∀ i, m ≤ i → ((List.range m).foldl dealStep (ps, deck)).1[i]? = ps[i]?) ∧
    (∀ i p, i < m → ps[i]? = some p →
      ∃ q, ((List.range m).foldl dealStep (ps, deck)).1[i]? = some q ∧
        q.hand.length = p.hand.length + 1) := by
  intro m
  induction m with
  | zero =>
    intro _ _
    exact ⟨rfl, rfl, fun i _ => rfl, fun i p h => absurd h (by omega)⟩
  | succ m ih =>
    intro hmp hmd
    obtain ⟨ihl, ihd, ihfr, ihlt⟩ := ih (by omega) (by omega)
    rw [List.range_succ, List.foldl_append]
    simp only [List.foldl_cons, List.foldl_nil]
    have hs2 : ((List.range m).foldl dealStep (ps, deck)).2 ≠ [] := by
      intro he
      rw [he] at ihd
      simp only [List.length_nil] at ihd
      omega
    obtain ⟨c, hc⟩ : ∃ c, ((List.range m).foldl dealStep (ps, deck)).2.getLast? = some c := by
      cases hl : ((List.range m).foldl dealStep (ps, deck)).2.getLast? with
      | none => exact absurd (List.getLast?_eq_none_iff.mp hl) hs2
      | some c => exact ⟨c, rfl⟩
    have hmlt : m < ((List.range m).foldl dealStep (ps, deck)).1.length := by
      rw [ihl]
      omega
    cases hgp : ((List.range m).foldl dealStep (ps, deck)).1[m]? with
    | none =>
      rw [List.getElem?_eq_none_iff] at hgp
      omega
    | some p =>
      have hstep : dealStep ((List.range m).foldl dealStep (ps, deck)) m
          = (((List.range m).foldl dealStep (ps, deck)).1.set m
              ({ p with hand := p.hand ++ [c] }),
            ((List.range m).foldl dealStep (ps, deck)).2.dropLast) := by
        simp only [dealStep, hc, hgp]
      rw [hstep]
      refine ⟨?_, ?_, ?_, ?_⟩
      · simp [List.length_set, ihl]
      · simp only [List.length_dropLast, ihd]
        omega
      · intro i hi
        rw [List.getElem?_set_ne (by omega)]
        exact ihfr i (by omega)
      · intro i p2 hi hp2
        by_cases him : i = m
        · subst him
          have hpp : p = p2 := by
            have he := ihfr i (le_refl i)
            rw [hgp, hp2] at he
            exact Option.some.inj he
          refine ⟨{ p with hand := p.hand ++ [c] }, ?_, ?_⟩
          · exact List.getElem?_set_self hmlt
          · simp [hpp]
        · rw [List.getElem?_set_ne (by omega)]
          exact ihlt i p2 (by omega) hp2

theorem dealLoop_spec :
    ∀ (count : Nat) (ps : List PlayerInRoom) (deck : List Card),
    count * ps.length ≤ deck.length →
    (∀ (i : Nat) (p : PlayerInRoom), ps[i]? = some p →
      ∃ q, (dealLoop count (ps, deck)).1[i]? = some q ∧
        q.hand.length = p.hand.length + count) ∧
    (dealLoop count (ps, deck)).2.length = deck.length - count * ps.length := by
  intro count
  induction count with
  | zero =>
    intro ps deck _
    exact ⟨fun i p hp => ⟨p, hp, rfl⟩, by simp [dealLoop]⟩
  | succ c ih =>
    intro ps deck hsuff
    have hsm : (c + 1) * ps.length = c * ps.length + ps.length := Nat.succ_mul c ps.length
    rw [hsm] at hsuff
    have hP : ps.length ≤ deck.length :=
      le_trans (Nat.le_add_left ps.length (c * ps.length)) hsuff
    obtain ⟨rl, rd, rfr, rlt⟩ := dealFold_spec ps deck ps.length (le_refl ps.length) hP
    have hloopstep : dealLoop (c + 1) (ps, deck) = dealLoop c (dealRound ps deck) := rfl
    have hround : dealRound ps deck = (List.range ps.length).foldl dealStep (ps, deck) := rfl
    have hsuff2 : c * (dealRound ps deck).1.length ≤ (dealRound ps deck).2.length := by
      rw [hround, rl, rd]
      exact Nat.le_sub_of_add_le hsuff
    obtain ⟨hpt, hdl⟩ := ih (dealRound ps deck).1 (dealRound ps deck).2 hsuff2
    constructor
    · intro i p hp
      have hi : i < ps.length := by
        by_contra hni
        rw [List.getElem?_eq_none (by omega)] at hp
        cases hp
      obtain ⟨q1, hq1, hl1⟩ := rlt i p hi hp
      obtain ⟨q2, hq2, hl2⟩ := hpt i q1 (by rw [hround]; exact hq1)
      refine ⟨q2, ?_, ?_⟩
      · rw [hloopstep]
        exact hq2
      · rw [hl2, hl1]
        omega
    · rw [hloopstep, hdl, hround, rl, rd, Nat.sub_sub, hsm, Nat.add_comm]

theorem dealStep_empty (ps : List PlayerInRoom) (idx : Nat) :
    dealStep (ps, ([] : List Card)) idx = (ps, []) := by
  simp [dealStep]

theorem dealFold_empty (is : List Nat) (ps : List PlayerInRoom) :
    is.foldl dealStep (ps, ([] : List Card)) = (ps, []) := by
  induction is with
  | nil => rfl
  | cons a as ih =>
    rw [List.foldl_cons, dealStep_empty]
    exact ih

theorem dealLoop_empty (n : Nat) (ps : List PlayerInRoom) :
    dealLoop n (ps, ([] : List Card)) = (ps, []) := by
  induction n with
  | zero => rfl
  | succ m ih =>
    rw [show dealLoop (m + 1) (ps, ([] : List Card))
        = dealLoop m (dealRound ps []) from rfl]
    rw [show dealRound ps [] = (ps, ([] : List Card)) from dealFold_empty _ ps]
    exact ih

theorem deal_cards_empty_deck {room : Room} {gs : CardGameSpecificState} {count : Nat}
    (hgs : room.game_state = some gs) (hd : gs.deck = []) :
    deal_cards room count = room := by
  simp only [deal_cards, hgs, hd, dealLoop_empty]
  rw [← hd, ← hgs]

theorem crud_start_insufficient (room : Room) (f : List Card → List Card)
    (h : (f (crud_create_deck_base room.settings)).length <
      room.players.length * room.settings.initial_deal_count) :
    crud_start_game room f = none := by
  simp only [crud_start_game, (buildHands_spec room.settings.initial_deal_count room.players
    (f (crud_create_deck_base room.settings)) []).2 h]

theorem deal_cards_full {room : Room} {gs : CardGameSpecificState} {count : Nat}
    (hgs : room.game_state = some gs)
    (hsuff : count * room.players.length ≤ gs.deck.length) :
    ∀ (i : Nat) (p : PlayerInRoom), room.players[i]? = some p →
      ∃ q, (deal_cards room count).players[i]? = some q ∧
        q.hand.length = p.hand.length + count := by
  intro i p hp
  obtain ⟨hpt, -⟩ := dealLoop_spec count room.players gs.deck hsuff
  obtain ⟨q, hq, hlen⟩ := hpt i p hp
  refine ⟨q, ?_, hlen⟩
  simp only [deal_cards, hgs]
  exact hq

/-- Claim C6 (amended): the host deal action (`deal_cards`) is total: it
always returns a room and conserves the card multiset; with an empty deck it
changes nothing (skipped gives), and when the deck holds at least
`count × players` cards every player's hand grows by exactly `count`,
one tail card per player per round-robin pass. The initial deal at game
start (`crud_room.start_game`) instead deals each player's whole hand in
player order and raises on an exhausted deck: with fewer cards than
`players × initial_deal_count` the whole start operation fails (`none`)
rather than dealing shorter hands; with enough cards every dealt hand has
exactly `initial_deal_count` cards. -/
theorem C6_deal_exhaustion :
    (∀ (room : Room) (count : Nat), ∃ r', deal_cards room count = r' ∧
      roomCards r' = roomCards room)
  ∧ (∀ (room : Room) (gs : CardGameSpecificState) (count : Nat),
      room.game_state = some gs → gs.deck = [] → deal_cards room count = room)
  ∧ (∀ (room : Room) (gs : CardGameSpecificState) (count : Nat),
      room.game_state = some gs → count * room.players.length ≤ gs.deck.length →
      ∀ (i : Nat) (p : PlayerInRoom), room.players[i]? = some p →
        ∃ q, (deal_cards room count).players[i]? = some q ∧
          q.hand.length = p.hand.length + count)
  ∧ (∀ (room : Room) (f : List Card → List Card),
      (f (crud_create_deck_base room.settings)).length <
        room.players.length * room.settings.initial_deal_count →
      crud_start_game room f = none)
  ∧ (∀ (room : Room) (f : List Card → List Card),
      (room.players.map (fun p => p.guest_id)).Nodup → room.players ≠ [] →
      room.players.length * room.settings.initial_deal_count
        ≤ (f (crud_create_deck_base room.settings)).length →
      ∃ r', crud_start_game room f = some r' ∧
        ∀ p ∈ r'.players, p.hand.length = room.settings.initial_deal_count) :=
  ⟨fun room count => ⟨deal_cards room count, rfl, deal_cards_conserves room count⟩,
   fun _ _ _ hgs hd => deal_cards_empty_deck hgs hd,
   fun _ _ _ hgs hsuff => deal_cards_full hgs hsuff,
   fun room f h => crud_start_insufficient room f h,
   fun room f hnd hne hsuff => crud_start_hands room f hnd hne hsuff⟩

/-- Claim C6 counterexample: `dealExhaustRoom` has four ready players, a
one-deck (52 card) setting and an initial deal of 17 per player (68 cards
needed); the start operation — dispatched by its host with all players
ready — fails outright instead of dealing shorter-than-requested hands. -/
theorem C6_counterexample :
    (dealExhaustRoom.players.all (fun p => p.is_ready)) = true ∧
    dealExhaustRoom.host_id = "a" ∧
    rest_start_game dealExhaustRoom "a" id = none := by
  decide

/-- Claim C6 witness: the empty-deck no-op and the sufficient-deck initial
deal applied to concrete rooms. -/
theorem C6_deal_exhaustion_witness :
    deal_cards playRoom 5 = playRoom ∧
    (∃ r', crud_start_game waitingRoom id = some r' ∧
      ∀ p ∈ r'.players, p.hand.length = waitingRoom.settings.initial_deal_count) :=
  ⟨C6_deal_exhaustion.2.1 playRoom playGs 5 rfl rfl,
   C6_deal_exhaustion.2.2.2.2 waitingRoom id (by decide) (by decide) (by decide)⟩

set_option maxRecDepth 100000 in
set_option maxHeartbeats 1600000 in
/-- Claim C7 (confirmed): for 1 ≤ N ≤ 4, `create_deck` yields 52·N cards
without jokers and 54·N with jokers; all card ids are pairwise distinct; for
every deck index below N the cards carrying that index cover exactly the 4
suits × 13 ranks in order, and with jokers enabled exactly two jokers with
the distinct color tags Red and Black carry that index. -/
theorem C7_deck_construction (n : Nat) (h1 : 1 ≤ n) (h2 : n ≤ 4) :
    (create_deck n false).length = 52 * n ∧
    (create_deck n true).length = 54 * n ∧
    ((create_deck n false).map Card.id).Nodup ∧
    ((create_deck n true).map Card.id).Nodup ∧
    (∀ d, d < n →
      ((create_deck n false).filter (fun c => c.deckId = d)).map
          (fun c => (c.suit, c.rank))
        = suits.flatMap (fun s2 => ranks.map (fun r => (s2, r)))) ∧
    (∀ d, d < n →
      ((create_deck n true).filter
          (fun c => decide (c.rank = "Joker") && decide (c.deckId = d))).map Card.suit
        = ["Red", "Black"]) := by
  interval_cases n <;> decide

/-- Claim C7 witness: the theorem applied at N = 2. -/
theorem C7_deck_construction_witness :
    (create_deck 2 false).length = 52 * 2 ∧ (create_deck 2 true).length = 54 * 2 :=
  ⟨(C7_deck_construction 2 (by decide) (by decide)).1,
   (C7_deck_construction 2 (by decide) (by decide)).2.1⟩

/-- Claim C8 (confirmed): removing the host from a room that keeps at least
one player promotes the first remaining player (earliest joined, since the
list is in join order) to host; removing the last player leaves zero players
and the room matches the cleanup sweep's empty-room criterion. -/
theorem C8_host_reassignment (room : Room) (g : String) (now : Nat) :
    (room.host_id = g →
      ∀ p rest, room.players.filter (fun q => q.guest_id ≠ g) = p :: rest →
        (remove_player_from_room room g now).host_id = p.guest_id ∧
        (remove_player_from_room room g now).players = p :: rest)
  ∧ ((∀ p ∈ room.players, p.guest_id = g) →
      (remove_player_from_room room g now).players = [] ∧
      sweep_eligible_empty (remove_player_from_room room g now) = true) := by
  constructor
  · intro hh p rest hf
    constructor
    · show (if room.host_id = g then
          (match (room.players.filter (fun q => q.guest_id ≠ g)).head? with
           | some q => q.guest_id
           | none => room.host_id)
        else room.host_id) = p.guest_id
      rw [hf, if_pos hh]
      rfl
    · show room.players.filter (fun q => q.guest_id ≠ g) = p :: rest
      exact hf
  · intro hall
    have hf : room.players.filter (fun q => q.guest_id ≠ g) = [] := by
      rw [List.filter_eq_nil_iff]
      intro a ha
      simp [hall a ha]
    constructor
    · show room.players.filter (fun q => q.guest_id ≠ g) = []
      exact hf
    · show decide ((room.players.filter (fun q => q.guest_id ≠ g)).length = 0) = true
      rw [hf]
      rfl

/-- Claim C8 witness: removing host a from the two-player room promotes b;
removing the only player of the solo room leaves it sweep-eligible. -/
theorem C8_host_reassignment_witness :
    ((remove_player_from_room recallRoom "a" 9).host_id = playerB.guest_id ∧
      (remove_player_from_room recallRoom "a" 9).players = [playerB])
  ∧ ((remove_player_from_room soloRoom "a" 9).players = [] ∧
      sweep_eligible_empty (remove_player_from_room soloRoom "a" 9) = true) :=
  ⟨(C8_host_reassignment recallRoom "a" 9).1 rfl playerB [] (by decide),
   (C8_host_reassignment soloRoom "a" 9).2 (by decide)⟩

theorem refresh_sid_frame :
    ∀ (ps : List PlayerInRoom) (g : String) (s2 : Option String) (j : Nat)
      (p q : PlayerInRoom),
    ps[j]? = some p → (refresh_sid ps g s2)[j]? = some q →
    q.guest_id = p.guest_id ∧ q.nickname = p.nickname ∧ q.is_ready = p.is_ready ∧
      q.hand = p.hand := by
  intro ps
  induction ps with
  | nil =>
    intro g s2 j p q hp hq
    simp at hp
  | cons e ps ih =>
    intro g s2 j p q hp hq
    by_cases he : e.guest_id = g
    · rw [show refresh_sid (e :: ps) g s2 = ({ e with sid := s2 }) :: ps from by
        simp [refresh_sid, he]] at hq
      cases j with
      | zero =>
        simp only [List.getElem?_cons_zero, Option.some.injEq] at hp hq
        subst hp
        subst hq
        exact ⟨rfl, rfl, rfl, rfl⟩
      | succ m =>
        simp only [List.getElem?_cons_succ] at hp hq
        rw [hp] at hq
        injection hq with hq
        subst hq
        exact ⟨rfl, rfl, rfl, rfl⟩
    · rw [show refresh_sid (e :: ps) g s2 = e :: refresh_sid ps g s2 from by
        simp [refresh_sid, he]] at hq
      cases j with
      | zero =>
        simp only [List.getElem?_cons_zero, Option.some.injEq] at hp hq
        subst hp
        subst hq
        exact ⟨rfl, rfl, rfl, rfl⟩
      | succ m =>
        simp only [List.getElem?_cons_succ] at hp hq
        exact ih g s2 m p q hp hq

/-- Claim C9 (confirmed): when the joining guest already has a player record
in the room, the upsert refreshes only that player's connection binding and
the room's `updated_at`: the result is the same room with `players` passed
through `refresh_sid` (which rewrites the first matching player's sid) and
`updated_at := now`, so name, host, status, settings, game state and the
timestamps other than `updated_at` are untouched, and every player keeps its
guest id, nickname, ready flag and hand. -/
theorem C9_rejoin_frame (room : Room) (player : PlayerInRoom) (now : Nat)
    (hmem : room.players.any (fun p => p.guest_id = player.guest_id) = true) :
    (add_player_to_room room player now
      = some { room with
          players := refresh_sid room.players player.guest_id player.sid
          updated_at := now })
  ∧ ∀ (j : Nat) (p q : PlayerInRoom), room.players[j]? = some p →
      (refresh_sid room.players player.guest_id player.sid)[j]? = some q →
      q.guest_id = p.guest_id ∧ q.nickname = p.nickname ∧ q.is_ready = p.is_ready ∧
        q.hand = p.hand := by
  constructor
  · simp [add_player_to_room, hmem]
  · intro j p q hp hq
    exact refresh_sid_frame room.players player.guest_id player.sid j p q hp hq

/-- Claim C9 witness: guest a rejoining `recallRoom` with a new connection
binding. -/
theorem C9_rejoin_frame_witness :
    (add_player_to_room recallRoom rejoinPlayer 11
      = some { recallRoom with
          players := refresh_sid recallRoom.players rejoinPlayer.guest_id rejoinPlayer.sid
          updated_at := 11 })
  ∧ ∀ (j : Nat) (p q : PlayerInRoom), recallRoom.players[j]? = some p →
      (refresh_sid recallRoom.players rejoinPlayer.guest_id rejoinPlayer.sid)[j]? = some q →
      q.guest_id = p.guest_id ∧ q.nickname = p.nickname ∧ q.is_ready = p.is_ready ∧
        q.hand = p.hand :=
  C9_rejoin_frame recallRoom rejoinPlayer 11 (by decide)

end Cards
